import Mathlib

/-!
# SMTP web client (`web_app.js`)

A shallow embedding of the browser-side mail client.  The module-level
variables (`ws`, `attachments`, `selectedRecipient`, `selectedEmail`) and the
DOM elements the script reads and writes are the fields of `Session`.  The
environment the script talks to is made explicit in the same record:

* `outbound`  : the frames accepted by `ws.send`, oldest first;
* `timers`    : the callbacks registered with `setTimeout` and not yet run,
                each with the clock value at which it is due;
* `attempts`  : the clock values at which `new WebSocket(...)` was evaluated;
* `console`   : the lines written with `console.log` / `console.error`;
* `uncaught`  : the exceptions that left an event handler;
* `now`       : the clock, in milliseconds.

JavaScript strings are lists of characters.
-/

namespace WebApp

/-! ## JavaScript string primitives -/

abbrev Str := List Char

/-- The characters removed by `String.prototype.trim`: ECMAScript WhiteSpace
and LineTerminator code points. -/
def isWhiteSpace (c : Char) : Bool :=
  c.toNat = 0x09 || c.toNat = 0x0A || c.toNat = 0x0B || c.toNat = 0x0C || c.toNat = 0x0D ||
  c.toNat = 0x20 || c.toNat = 0xA0 || c.toNat = 0x1680 ||
  (0x2000 ≤ c.toNat && c.toNat ≤ 0x200A) ||
  c.toNat = 0x2028 || c.toNat = 0x2029 || c.toNat = 0x202F || c.toNat = 0x205F ||
  c.toNat = 0x3000 || c.toNat = 0xFEFF

def trimStart (s : Str) : Str := s.dropWhile isWhiteSpace

def trimEnd (s : Str) : Str := (s.reverse.dropWhile isWhiteSpace).reverse

/-- The method `s.trim()`. -/
def trim (s : Str) : Str := trimEnd (trimStart s)

/-- The method `s.split(sep)` for a one-character separator: the pieces between
the separators, in order; the empty string gives one empty piece. -/
def split (sep : Char) : Str → List Str
  | [] => [[]]
  | c :: cs =>
    if c = sep then [] :: split sep cs
    else match split sep cs with
      | [] => [[c]]
      | p :: ps => (c :: p) :: ps

/-- Worker of `replaceAll`: `skip` counts the characters of the current match
that are still to be consumed. -/
def replaceAux (pat rep : Str) : Nat → Str → Str
  | _, [] => []
  | skip + 1, _ :: cs => replaceAux pat rep skip cs
  | 0, c :: cs =>
    if pat.isPrefixOf (c :: cs) then rep ++ replaceAux pat rep (pat.length - 1) cs
    else c :: replaceAux pat rep 0 cs

/-- The call `s.replace(/pat/g, rep)` for a non-empty literal pattern: the
matches are found scanning left to right, each search resuming right after the
previous match. -/
def replaceAll (pat rep : Str) (s : Str) : Str := replaceAux pat rep 0 s

/-- The call `pieces.join('')`. -/
def join : List Str → Str
  | [] => []
  | p :: ps => p ++ join ps

/-- Template-literal conversion of a number. -/
def numToStr (n : Nat) : Str := (toString n).toList

/-! ## Data model -/

structure Attachment where
  name : Str
  data : Str
  deriving DecidableEq, Repr

inductive ReadyState
  | CONNECTING
  | OPEN
  | CLOSING
  | CLOSED
  deriving DecidableEq, Repr

structure WebSocket where
  url : Str
  readyState : ReadyState
  deriving DecidableEq, Repr

/-- The objects the script passes to `JSON.stringify` and `ws.send`, keyed by
their `type` field; the constructor arguments are the other fields. -/
inductive OutMsg
  | send_email (sender : Str) (recipients : List Str) (subject body : Str)
      (attachments : List Attachment)
  | get_recipients
  | get_emails (recipient : Str)
  | get_email_content (recipient filename : Str)
  deriving DecidableEq, Repr

/-- An element of the `data` array of an inbound message. -/
structure Item where
  name : Str := []
  count : Nat := 0
  filename : Str := []
  display : Str := []
  isAttachment : Bool := false
  deriving DecidableEq, Repr

/-- A parsed inbound frame.  The field `type` is `none` when the object has no
string under `type`. -/
structure InMsg where
  type : Option Str
  message : Str := []
  data : List Item := []
  recipient : Str := []
  content : Str := []
  is_binary : Bool := false
  deriving DecidableEq, Repr

/-- The functions handed to `setTimeout`. -/
inductive Callback
  | connectWebSocket
  | enableSend
  | clearStatus
  deriving DecidableEq, Repr

structure Timer where
  due : Nat
  callback : Callback
  deriving DecidableEq, Repr

inductive JsError
  | TypeError
  | InvalidStateError
  deriving DecidableEq, Repr

/-- What an element shows: markup assigned to `innerHTML` or text assigned to
`textContent`. -/
inductive Content
  | html (markup : Str)
  | text (value : Str)
  deriving DecidableEq, Repr

structure Session where
  ws : Option WebSocket
  attachments : List Attachment
  selectedRecipient : Option Str
  selectedEmail : Option Str
  statusIndicatorConnected : Bool
  statusText : Str
  statusMessageText : Str
  statusMessageClass : Str
  sendBtnDisabled : Bool
  attachmentCount : Str
  attachmentList : Str
  recipientsList : Str
  emailsList : Str
  emailContent : Content
  senderField : Str
  recipientsField : Str
  subjectField : Str
  bodyField : Str
  now : Nat
  timers : List Timer
  outbound : List OutMsg
  attempts : List Nat
  console : List Str
  uncaught : List JsError
  deriving DecidableEq, Repr

/-- The module right after its top-level statements have run, before the
`load` event. -/
def initial : Session :=
  { ws := none, attachments := [], selectedRecipient := none, selectedEmail := none,
    statusIndicatorConnected := false, statusText := [], statusMessageText := [],
    statusMessageClass := [], sendBtnDisabled := false, attachmentCount := [],
    attachmentList := [], recipientsList := [], emailsList := [],
    emailContent := .html [], senderField := [], recipientsField := [], subjectField := [],
    bodyField := [], now := 0, timers := [], outbound := [], attempts := [], console := [],
    uncaught := [] }

/-! ## Environment calls -/

def setTimeout (cb : Callback) (delay : Nat) (s : Session) : Session :=
  { s with timers := s.timers ++ [⟨s.now + delay, cb⟩] }

def consoleLog (line : Str) (s : Session) : Session :=
  { s with console := s.console ++ [line] }

/-- The call `ws.send(JSON.stringify(m))`.  Dereferencing the `null` handle is a
`TypeError`; a socket that is still connecting throws `InvalidStateError`;
otherwise the call returns and the frame is recorded. -/
def wsSend (m : OutMsg) (s : Session) : Except JsError Session :=
  match s.ws with
  | none => .error .TypeError
  | some sock =>
    if sock.readyState = .CONNECTING then .error .InvalidStateError
    else .ok { s with outbound := s.outbound ++ [m] }

/-! ## The functions of `web_app.js` -/

def showStatus (message : Str) (type : Str) (s : Session) : Session :=
  let s1 := { s with statusMessageText := message, statusMessageClass := type }
  if type = "success".toList ∨ type = "error".toList then setTimeout .clearStatus 5000 s1
  else s1

def updateConnectionStatus (connected : Bool) (s : Session) : Session :=
  if connected then
    { s with statusIndicatorConnected := true, statusText := "Connected".toList,
             sendBtnDisabled := false }
  else
    { s with statusIndicatorConnected := false, statusText := "Disconnected".toList,
             sendBtnDisabled := true }

def loadInbox (s : Session) : Session :=
  match s.ws with
  | none => s
  | some sock =>
    if sock.readyState = .OPEN then { s with outbound := s.outbound ++ [.get_recipients] }
    else s

def connectWebSocket (s : Session) : Session :=
  { s with ws := some ⟨"ws://localhost:8787".toList, .CONNECTING⟩,
           attempts := s.attempts ++ [s.now] }

def attachmentItem (att : Attachment) (index : Nat) : Str :=
  "\n            <div class=\"attachment-item\">\n                <span>📎 ".toList ++ att.name ++
  "</span>\n                <button onclick=\"removeAttachment(".toList ++ numToStr index ++
  ")\">×</button>\n            </div>\n        ".toList

def updateAttachmentDisplay (s : Session) : Session :=
  if s.attachments.length = 0 then
    { s with attachmentCount := "No attachments".toList, attachmentList := [] }
  else
    { s with attachmentCount := numToStr s.attachments.length ++ " file(s) attached".toList,
             attachmentList :=
               join ((s.attachments.zip (List.range s.attachments.length)).map
                 (fun p => attachmentItem p.1 p.2)) }

/-- The `reader.onload` callback registered by `handleFileSelect` for one file. -/
def handleFileSelect (att : Attachment) (s : Session) : Session :=
  updateAttachmentDisplay { s with attachments := s.attachments ++ [att] }

def removeAttachment (index : Nat) (s : Session) : Session :=
  updateAttachmentDisplay { s with attachments := s.attachments.eraseIdx index }

def clearForm (s : Session) : Session :=
  updateAttachmentDisplay
    { s with senderField := [], recipientsField := [], subjectField := [], bodyField := [],
             attachments := [] }

def sendEmail (s : Session) : Session :=
  let sender := trim s.senderField
  let recipientsText := trim s.recipientsField
  let subject := trim s.subjectField
  let body := trim s.bodyField
  if sender = [] ∨ recipientsText = [] then
    showStatus "Sender and recipients are required".toList "error".toList s
  else
    let recipients := ((split ',' recipientsText).map trim).filter (fun r => r ≠ [])
    if recipients.length = 0 then
      showStatus "At least one recipient is required".toList "error".toList s
    else
      let emailData := OutMsg.send_email sender recipients subject body s.attachments
      let s1 := showStatus "Sending email...".toList [] { s with sendBtnDisabled := true }
      match wsSend emailData s1 with
      | .error e => { s1 with uncaught := s1.uncaught ++ [e] }
      | .ok s2 => setTimeout .enableSend 2000 s2

/-- The expression `name.replace(/_at_/g, '@').replace(/_/g, '.')`. -/
def displayName (name : Str) : Str :=
  replaceAll "_".toList ".".toList (replaceAll "_at_".toList "@".toList name)

def recipientItem (selectedRecipient : Option Str) (recipient : Item) : Str :=
  "\n        <div class=\"list-item ".toList ++
  (if selectedRecipient = some recipient.name then "active".toList else []) ++
  "\" \n             onclick=\"selectRecipient('".toList ++ recipient.name ++
  "')\">\n            <div class=\"list-item-name\">".toList ++ displayName recipient.name ++
  "</div>\n            <div class=\"list-item-count\">".toList ++ numToStr recipient.count ++
  " email(s)</div>\n        </div>\n    ".toList

def displayRecipients (recipients : List Item) (s : Session) : Session :=
  if recipients.length = 0 then
    { s with recipientsList := "<div class=\"empty-state\">No emails yet</div>".toList }
  else
    { s with recipientsList := join (recipients.map (recipientItem s.selectedRecipient)) }

def emailItem (selectedEmail : Option Str) (recipient : Str) (email : Item) : Str :=
  let icon := if email.isAttachment then "📎".toList else "📧".toList
  "\n            <div class=\"list-item ".toList ++
  (if selectedEmail = some email.filename then "active".toList else []) ++
  "\" \n                 onclick=\"selectEmail('".toList ++ recipient ++ "', '".toList ++
  email.filename ++ "')\">\n                <div class=\"list-item-name\">".toList ++ icon ++
  " ".toList ++ email.display ++ "</div>\n                ".toList ++
  (if email.isAttachment then "<div class=\"list-item-attachment\">Attachment</div>".toList
   else []) ++
  "\n            </div>\n        ".toList

def displayEmails (emails : List Item) (recipient : Str) (s : Session) : Session :=
  if emails.length = 0 then
    { s with emailsList := "<div class=\"empty-state\">No emails</div>".toList }
  else
    { s with emailsList := join (emails.map (emailItem s.selectedEmail recipient)) }

def displayEmailContent (content : Str) (isBinary : Bool) (s : Session) : Session :=
  if isBinary then
    { s with emailContent :=
        .html ("<div style=\"color: #667eea;\">".toList ++ content ++ "</div>".toList) }
  else
    { s with emailContent := .text content }

def handleMessage (data : InMsg) (s : Session) : Session :=
  if data.type = some "connected".toList then consoleLog data.message s
  else if data.type = some "send_success".toList then
    loadInbox (clearForm (showStatus data.message "success".toList s))
  else if data.type = some "recipients".toList then displayRecipients data.data s
  else if data.type = some "emails".toList then displayEmails data.data data.recipient s
  else if data.type = some "email_content".toList then
    displayEmailContent data.content data.is_binary s
  else if data.type = some "inbox_updated".toList then loadInbox s
  else if data.type = some "error".toList then showStatus data.message "error".toList s
  else s

/-! ### The socket handlers installed by `connectWebSocket` -/

def onopen (s : Session) : Session :=
  loadInbox (showStatus "Connected to SMTP server".toList "success".toList
    (updateConnectionStatus true (consoleLog "Connected to WebSocket server".toList s)))

def onmessage (data : InMsg) (s : Session) : Session := handleMessage data s

def onerror (s : Session) : Session :=
  showStatus "Connection error".toList "error".toList (consoleLog "WebSocket error:".toList s)

def onclose (s : Session) : Session :=
  setTimeout .connectWebSocket 3000
    (showStatus "Disconnected from server".toList "error".toList
      (updateConnectionStatus false (consoleLog "Disconnected from WebSocket server".toList s)))

/-! ## The event loop -/

def runCallback : Callback → Session → Session
  | .connectWebSocket, s => connectWebSocket s
  | .enableSend, s => { s with sendBtnDisabled := false }
  | .clearStatus, s => { s with statusMessageText := [], statusMessageClass := [] }

/-- The pending timer that runs first: the smallest due time, the one
registered first among equal due times. -/
def earliest : List Timer → Option Timer
  | [] => none
  | tm :: rest =>
    match earliest rest with
    | none => some tm
    | some tm2 => if tm.due ≤ tm2.due then some tm else some tm2

/-- One timer firing: the timer leaves the queue, the clock stands at its due
time (or later, when it is overdue), and its callback runs. -/
def fireStep (tm : Timer) (s : Session) : Session :=
  runCallback tm.callback { s with timers := s.timers.erase tm, now := max s.now tm.due }

/-- Let the clock run up to `t`, running the timers that fall due on the way,
one per unit of fuel. -/
def advanceFuel : Nat → Nat → Session → Session
  | 0, t, s => { s with now := max s.now t }
  | fuel + 1, t, s =>
    match earliest s.timers with
    | none => { s with now := max s.now t }
    | some tm =>
      if tm.due ≤ t then advanceFuel fuel t (fireStep tm s)
      else { s with now := max s.now t }

/-- Let the clock run up to `t`.  No callback of this script registers a timer,
so one unit of fuel per pending timer is enough (`advanceTo_timers`). -/
def advanceTo (t : Nat) (s : Session) : Session := advanceFuel s.timers.length t s

def setReadyState (r : ReadyState) (s : Session) : Session :=
  { s with ws := s.ws.map (fun sock => { sock with readyState := r }) }

inductive Field
  | sender
  | recipients
  | subject
  | body
  deriving DecidableEq, Repr

/-- What the browser delivers to the script: the four socket events, the form
and button listeners of `setupEventListeners`, the completion of a file read,
the inline `removeAttachment` handler, and the user editing a form field.  The
list clicks (`selectRecipient`, `selectEmail`) are not part of this model. -/
inductive Event
  | load
  | open
  | message (data : InMsg)
  | error
  | close
  | submit
  | clearClick
  | refreshClick
  | fileRead (att : Attachment)
  | removeClick (index : Nat)
  | input (field : Field) (value : Str)
  deriving DecidableEq, Repr

/-- Run the listener of one event.  The browser sets the ready state of the
socket before it calls `onopen` / `onclose`. -/
def dispatch : Event → Session → Session
  | .load, s => connectWebSocket s
  | .open, s => onopen (setReadyState .OPEN s)
  | .message data, s => onmessage data s
  | .error, s => onerror s
  | .close, s => onclose (setReadyState .CLOSED s)
  | .submit, s => sendEmail s
  | .clearClick, s => clearForm s
  | .refreshClick, s => loadInbox s
  | .fileRead att, s => handleFileSelect att s
  | .removeClick index, s => removeAttachment index s
  | .input .sender v, s => { s with senderField := v }
  | .input .recipients v, s => { s with recipientsField := v }
  | .input .subject v, s => { s with subjectField := v }
  | .input .body v, s => { s with bodyField := v }

/-- A timed trace: each event is delivered once the clock has reached its
time stamp. -/
def run : List (Nat × Event) → Session → Session
  | [], s => s
  | (t, e) :: rest, s => run rest (dispatch e (advanceTo t s))

/-! ## Specification-side definitions -/

/-- The recipient list in the words of the specification: the recipients text
split on `,`, each piece trimmed, the empty pieces dropped. -/
def recipientList (text : Str) : List Str :=
  ((split ',' text).map trim).filter (fun r => r ≠ [])

/-- The validation condition in the words of the specification: the sender is
non-empty after trimming and at least one recipient piece is non-empty. -/
def validForm (s : Session) : Prop :=
  trim s.senderField ≠ [] ∧ recipientList s.recipientsField ≠ []

instance (s : Session) : Decidable (validForm s) := by
  unfold validForm
  infer_instance

/-- The `recipients` field of an outbound message, when it has one. -/
def OutMsg.recipients : OutMsg → Option (List Str)
  | .send_email _ r _ _ _ => some r
  | _ => none

/-- The session after the page has loaded and the socket has opened. -/
def connected : Session := dispatch .open (dispatch .load initial)

/-- A connected session with a filled-in form whose recipients text is
malformed. -/
def draft : Session :=
  { connected with senderField := " me@x.org ".toList,
                   recipientsField := " a@b.com , , c@d.com ".toList,
                   subjectField := " Hi".toList }

/-- A run of failing connection attempts: the socket closes now, and the
attempt made by the reconnect timer 3000 ms later closes in turn after `d`
more milliseconds, for each `d` of the list. -/
def retryRounds : List Nat → Session → Session
  | [], s => s
  | d :: ds, s => retryRounds ds (advanceTo (s.now + 3000 + d) (dispatch .close s))

/-- The attempt times the specification asks for in such a run that starts
with a close at time `T`: each attempt 3000 ms after the close before it. -/
def attemptTimes : Nat → List Nat → List Nat
  | _, [] => []
  | T, d :: ds => (T + 3000) :: attemptTimes (T + 3000 + d) ds

/-- The first pass of the display transform in the words of the specification:
every `_at_` becomes `@`, scanning left to right without overlap. -/
def unescapeAt : Str → Str
  | '_' :: 'a' :: 't' :: '_' :: rest => '@' :: unescapeAt rest
  | c :: rest => c :: unescapeAt rest
  | [] => []

/-- The second pass: every remaining `_` becomes `.`. -/
def unescapeDot (s : Str) : Str := s.map (fun c => if c = '_' then '.' else c)

/-- The display name in the words of the specification: `_at_` is replaced
before the bare `_`. -/
def specDisplayName (name : Str) : Str := unescapeDot (unescapeAt name)

/-- Modelled from the spec: the identifier escaping, which the server performs
and `web_app.js` does not contain: each `@` becomes `_at_`, each `.` becomes
`_`, every other character stays. -/
def escapeAddress : Str → Str
  | [] => []
  | c :: cs =>
    (if c = '@' then "_at_".toList else if c = '.' then "_".toList else [c]) ++ escapeAddress cs

/-- Whether `pat` occurs somewhere in the string. -/
def occursIn (pat : Str) : Str → Bool
  | [] => pat.isPrefixOf []
  | c :: cs => pat.isPrefixOf (c :: cs) || occursIn pat cs

/-- The addresses the escaping loses nothing of: no `_`, and no `.at` that is
followed by `.` or `@`. -/
def roundTripSafe (a : Str) : Bool :=
  !a.contains '_' && !occursIn ".at.".toList a && !occursIn ".at@".toList a

/-- The head of a spurious marker: a `.` followed by `at` and then `.` or `@`. -/
def spuriousHead (a : Str) : Bool :=
  List.isPrefixOf ['.', 'a', 't', '.'] a || List.isPrefixOf ['.', 'a', 't', '@'] a

/-! ## Browser runs -/

/-- The pending timers that will call `connectWebSocket`. -/
def connectTimers (s : Session) : List Timer :=
  s.timers.filter (fun tm => decide (tm.callback = .connectWebSocket))

/-- When the browser can deliver an event: `load` once, before any socket
exists; `open` to a socket that is connecting; `message` to an open socket;
`close` to a socket that has not closed yet; the listeners of
`setupEventListeners` once the load handler has run. -/
def enabled : Event → Session → Bool
  | .load, s => s.ws.isNone
  | .open, s => s.ws.any (fun sock => sock.readyState = .CONNECTING)
  | .message _, s => s.ws.any (fun sock => sock.readyState = .OPEN)
  | .close, s => s.ws.any (fun sock => sock.readyState ≠ .CLOSED)
  | _, s => s.ws.isSome

/-- The sessions a browser run can reach from the freshly evaluated module:
time passes, and enabled events are delivered. -/
inductive Reachable : Session → Prop
  | start : Reachable initial
  | wait (t : Nat) (s : Session) : Reachable s → Reachable (advanceTo t s)
  | event (e : Event) (s : Session) : Reachable s → enabled e s = true →
      Reachable (dispatch e s)

/-- At most one reconnect is pending, and only while the socket is closed. -/
def ReconnectInv (s : Session) : Prop :=
  connectTimers s = [] ∨
  ((connectTimers s).length = 1 ∧ ∃ sock, s.ws = some sock ∧ sock.readyState = .CLOSED)

/-- The listener changed neither the socket handle nor the pending reconnects. -/
def Quiet (s s2 : Session) : Prop := s2.ws = s.ws ∧ connectTimers s2 = connectTimers s

end WebApp

namespace WebApp

/-! ## Splitting and trimming -/

theorem comma_not_space : isWhiteSpace ',' = false := by decide

theorem split_ne_nil (sep : Char) (s : Str) : split sep s ≠ [] := by
  cases s with
  | nil => simp [split]
  | cons c cs =>
    simp only [split]
    split_ifs
    · simp
    · cases split sep cs <;> simp

theorem split_cons_of_ne (sep c : Char) (cs : Str) (h : c ≠ sep) :
    ∃ p ps, split sep cs = p :: ps ∧ split sep (c :: cs) = (c :: p) :: ps := by
  cases hs : split sep cs with
  | nil => exact absurd hs (split_ne_nil sep cs)
  | cons p ps => exact ⟨p, ps, rfl, by simp [split, h, hs]⟩

theorem trim_cons_space (c : Char) (p : Str) (h : isWhiteSpace c = true) :
    trim (c :: p) = trim p := by
  simp [trim, trimStart, List.dropWhile, h]

theorem recipientList_trimStart (t : Str) : recipientList (trimStart t) = recipientList t := by
  induction t with
  | nil => rfl
  | cons c cs ih =>
    by_cases hc : isWhiteSpace c = true
    · have hne : c ≠ ',' := by
        rintro rfl
        simp [comma_not_space] at hc
      obtain ⟨p, ps, h1, h2⟩ := split_cons_of_ne ',' c cs hne
      have hts : trimStart (c :: cs) = trimStart cs := by simp [trimStart, List.dropWhile, hc]
      rw [hts, ih]
      simp [recipientList, h1, h2, trim_cons_space c p hc]
    · simp [trimStart, List.dropWhile, hc]

theorem split_no_sep (sep : Char) (w : Str) (h : ∀ c ∈ w, c ≠ sep) : split sep w = [w] := by
  induction w with
  | nil => rfl
  | cons c cs ih =>
    have h1 : c ≠ sep := h c (by simp)
    have h2 := ih (fun x hx => h x (by simp [hx]))
    simp [split, h1, h2]

theorem split_append_spaces (sep : Char) (w : Str) (h : ∀ c ∈ w, c ≠ sep) (u : Str) :
    ∃ ps p, split sep u = ps ++ [p] ∧ split sep (u ++ w) = ps ++ [p ++ w] := by
  induction u with
  | nil => exact ⟨[], [], by simp [split], by simpa using split_no_sep sep w h⟩
  | cons c cs ih =>
    obtain ⟨ps, p, h1, h2⟩ := ih
    by_cases hc : c = sep
    · exact ⟨[] :: ps, p, by simp [split, hc, h1], by simp [split, hc, h2]⟩
    · cases ps with
      | nil =>
        refine ⟨[], c :: p, ?_, ?_⟩
        · simp at h1; simp [split, hc, h1]
        · simp at h2; simp [split, hc, h2]
      | cons q qs =>
        refine ⟨(c :: q) :: qs, p, ?_, ?_⟩
        · simp at h1; simp [split, hc, h1]
        · simp at h2; simp [split, hc, h2]

theorem dropWhile_spaces (l : Str) (hl : ∀ c ∈ l, isWhiteSpace c = true) (r : Str) :
    (l ++ r).dropWhile isWhiteSpace = r.dropWhile isWhiteSpace := by
  induction l with
  | nil => rfl
  | cons a l ih =>
    have ha : isWhiteSpace a = true := hl a (by simp)
    simp only [List.cons_append, List.dropWhile, ha]
    exact ih (fun x hx => hl x (by simp [hx]))

theorem trimEnd_append_spaces (w : Str) (h : ∀ c ∈ w, isWhiteSpace c = true) (p : Str) :
    trimEnd (p ++ w) = trimEnd p := by
  unfold trimEnd
  rw [List.reverse_append]
  congr 1
  exact dropWhile_spaces w.reverse (by simpa using h) p.reverse

theorem trimStart_append_spaces (w : Str) (h : ∀ c ∈ w, isWhiteSpace c = true) (p : Str) :
    ∃ w2, (∀ c ∈ w2, isWhiteSpace c = true) ∧ trimStart (p ++ w) = trimStart p ++ w2 := by
  induction p with
  | nil =>
    refine ⟨[], by simp, ?_⟩
    have := dropWhile_spaces w h []
    simpa [trimStart] using this
  | cons a p ih =>
    by_cases ha : isWhiteSpace a = true
    · obtain ⟨w2, hw2, e⟩ := ih
      refine ⟨w2, hw2, ?_⟩
      simpa [trimStart, List.dropWhile, ha] using e
    · exact ⟨w, h, by simp [trimStart, List.dropWhile, ha]⟩

theorem trim_append_spaces (w : Str) (h : ∀ c ∈ w, isWhiteSpace c = true) (p : Str) :
    trim (p ++ w) = trim p := by
  obtain ⟨w2, hw2, e⟩ := trimStart_append_spaces w h p
  simp only [trim, e]
  exact trimEnd_append_spaces w2 hw2 (trimStart p)

theorem trimEnd_decompose (t : Str) :
    ∃ w, (∀ c ∈ w, isWhiteSpace c = true) ∧ t = trimEnd t ++ w := by
  refine ⟨(t.reverse.takeWhile isWhiteSpace).reverse, ?_, ?_⟩
  · intro c hc
    rw [List.mem_reverse] at hc
    exact List.mem_takeWhile_imp hc
  · have := List.takeWhile_append_dropWhile isWhiteSpace t.reverse
    have h2 := congrArg List.reverse this
    simp only [List.reverse_append, List.reverse_reverse] at h2
    simpa [trimEnd] using h2.symm

theorem recipientList_append_spaces (w : Str) (h : ∀ c ∈ w, isWhiteSpace c = true) (u : Str) :
    recipientList (u ++ w) = recipientList u := by
  have hsep : ∀ c ∈ w, c ≠ ',' := by
    intro c hc hcomma
    have := h c hc
    rw [hcomma, comma_not_space] at this
    exact Bool.noConfusion this
  obtain ⟨ps, p, h1, h2⟩ := split_append_spaces ',' w hsep u
  simp [recipientList, h1, h2, trim_append_spaces w h p]

theorem recipientList_trim (t : Str) : recipientList (trim t) = recipientList t := by
  obtain ⟨w, hw, e⟩ := trimEnd_decompose (trimStart t)
  have h1 := recipientList_append_spaces w hw (trimEnd (trimStart t))
  rw [← e] at h1
  rw [trim, ← h1, recipientList_trimStart]

theorem recipientList_nil : recipientList [] = [] := by decide

/-! ## `sendEmail` on valid and invalid forms -/

theorem sendEmail_invalid (s : Session) (h : ¬ validForm s) :
    ∃ msg, sendEmail s = showStatus msg "error".toList s := by
  unfold sendEmail
  simp only []
  by_cases h1 : trim s.senderField = [] ∨ trim s.recipientsField = []
  · exact ⟨_, by rw [if_pos h1]⟩
  · rw [if_neg h1]
    have h2 : recipientList s.recipientsField = [] := by
      by_contra hne
      exact h ⟨fun e => h1 (Or.inl e), hne⟩
    have h3 : (List.filter (fun r => decide (r ≠ [])) (List.map trim (split ',' (trim s.recipientsField)))).length = 0 := by
      have := recipientList_trim s.recipientsField
      rw [h2] at this
      simp only [recipientList] at this
      rw [this]; rfl
    exact ⟨_, by rw [if_pos h3]⟩

theorem sendEmail_valid (s : Session) (h : validForm s) :
    sendEmail s =
      match wsSend (.send_email (trim s.senderField) (recipientList s.recipientsField)
          (trim s.subjectField) (trim s.bodyField) s.attachments)
          (showStatus "Sending email...".toList [] { s with sendBtnDisabled := true }) with
      | .error e =>
        { showStatus "Sending email...".toList [] { s with sendBtnDisabled := true } with
          uncaught := s.uncaught ++ [e] }
      | .ok s2 => setTimeout .enableSend 2000 s2 := by
  obtain ⟨hs, hr⟩ := h
  have hr2 : recipientList (trim s.recipientsField) ≠ [] := by rwa [recipientList_trim]
  have ht : trim s.recipientsField ≠ [] := by
    intro e
    rw [e] at hr2
    exact hr2 recipientList_nil
  have h1 : ¬ (trim s.senderField = [] ∨ trim s.recipientsField = []) := by
    rintro (e | e)
    · exact hs e
    · exact ht e
  have h3 : ¬ (List.filter (fun r => decide (r ≠ [])) (List.map trim (split ',' (trim s.recipientsField)))).length = 0 := by
    intro e
    exact hr2 (List.length_eq_zero.mp e)
  have e4 : List.filter (fun r => decide (r ≠ [])) (List.map trim (split ',' (trim s.recipientsField)))
      = recipientList s.recipientsField := recipientList_trim s.recipientsField
  unfold sendEmail
  simp only []
  rw [if_neg h1, if_neg h3, e4]
  rfl

theorem sendEmail_valid_open (s : Session) (h : validForm s) (sock : WebSocket)
    (hw : s.ws = some sock) (ho : sock.readyState = .OPEN) :
    sendEmail s =
      { s with sendBtnDisabled := true, statusMessageText := "Sending email...".toList,
               statusMessageClass := [],
               outbound := s.outbound ++ [.send_email (trim s.senderField)
                 (recipientList s.recipientsField) (trim s.subjectField) (trim s.bodyField)
                 s.attachments],
               timers := s.timers ++ [⟨s.now + 2000, .enableSend⟩] } := by
  rw [sendEmail_valid s h]
  simp [wsSend, showStatus, hw, ho, setTimeout]

/-! ## The timer queue -/

theorem earliest_mem : ∀ (l : List Timer) (tm : Timer), earliest l = some tm → tm ∈ l
  | [], tm, h => by simp [earliest] at h
  | a :: rest, tm, h => by
    simp only [earliest] at h
    cases hr : earliest rest with
    | none =>
      rw [hr] at h
      simp only [Option.some.injEq] at h
      simp [h]
    | some tm2 =>
      rw [hr] at h
      by_cases hle : a.due ≤ tm2.due
      · simp only [hle, if_true, Option.some.injEq] at h
        simp [h]
      · simp only [hle, if_false, Option.some.injEq] at h
        subst h
        exact List.mem_cons_of_mem _ (earliest_mem rest tm2 hr)

theorem earliest_le : ∀ (l : List Timer) (tm : Timer), earliest l = some tm →
    ∀ x ∈ l, tm.due ≤ x.due
  | [], tm, h => by simp [earliest] at h
  | a :: rest, tm, h => by
    simp only [earliest] at h
    cases hr : earliest rest with
    | none =>
      rw [hr] at h
      simp only [Option.some.injEq] at h
      subst h
      have hnil : rest = [] := by
        cases rest with
        | nil => rfl
        | cons b r =>
          simp only [earliest] at hr
          cases h2 : earliest r with
          | none => rw [h2] at hr; simp at hr
          | some t2 => rw [h2] at hr; by_cases hb : b.due ≤ t2.due <;> simp [hb] at hr
      intro x hx
      simp [hnil] at hx
      simp [hx]
    | some tm2 =>
      rw [hr] at h
      have ih := earliest_le rest tm2 hr
      by_cases hle : a.due ≤ tm2.due
      · simp only [hle, if_true, Option.some.injEq] at h
        subst h
        intro x hx
        rcases List.mem_cons.mp hx with rfl | hx
        · exact le_rfl
        · exact le_trans hle (ih x hx)
      · simp only [hle, if_false, Option.some.injEq] at h
        subst h
        intro x hx
        rcases List.mem_cons.mp hx with rfl | hx
        · omega
        · exact ih x hx

theorem earliest_none (l : List Timer) (h : earliest l = none) : l = [] := by
  cases l with
  | nil => rfl
  | cons b r =>
    simp only [earliest] at h
    cases h2 : earliest r with
    | none => rw [h2] at h; simp at h
    | some t2 => rw [h2] at h; by_cases hb : b.due ≤ t2.due <;> simp [hb] at h

theorem runCallback_timers (cb : Callback) (s : Session) :
    (runCallback cb s).timers = s.timers := by
  cases cb <;> rfl

theorem runCallback_now (cb : Callback) (s : Session) :
    (runCallback cb s).now = s.now := by
  cases cb <;> rfl

theorem fireStep_timers (tm : Timer) (s : Session) :
    (fireStep tm s).timers = s.timers.erase tm := by
  simp [fireStep, runCallback_timers]

theorem fireStep_now (tm : Timer) (s : Session) :
    (fireStep tm s).now = max s.now tm.due := by
  simp [fireStep, runCallback_now]

theorem advanceFuel_rec (t : Nat) (P Q : Session → Prop)
    (hstep : ∀ s tm, P s → earliest s.timers = some tm → tm.due ≤ t → P (fireStep tm s))
    (hend : ∀ s, P s → (∀ tm ∈ s.timers, t < tm.due) → Q { s with now := max s.now t }) :
    ∀ (fuel : Nat) (s : Session), s.timers.length ≤ fuel → P s → Q (advanceFuel fuel t s) := by
  intro fuel
  induction fuel with
  | zero =>
    intro s hlen hP
    have hnil : s.timers = [] := List.length_eq_zero.mp (Nat.le_zero.mp hlen)
    simp only [advanceFuel]
    exact hend s hP (by simp [hnil])
  | succ n ih =>
    intro s hlen hP
    simp only [advanceFuel]
    cases he : earliest s.timers with
    | none =>
      simp only []
      exact hend s hP (by simp [earliest_none _ he])
    | some tm =>
      simp only []
      by_cases hdue : tm.due ≤ t
      · rw [if_pos hdue]
        have hmem := earliest_mem _ _ he
        have hlen2 : (fireStep tm s).timers.length ≤ n := by
          rw [fireStep_timers, List.length_erase_of_mem hmem]
          omega
        exact ih (fireStep tm s) hlen2 (hstep s tm hP he hdue)
      · rw [if_neg hdue]
        refine hend s hP ?_
        intro x hx
        have := earliest_le _ _ he x hx
        omega

theorem advanceTo_rec (t : Nat) (P Q : Session → Prop)
    (hstep : ∀ s tm, P s → earliest s.timers = some tm → tm.due ≤ t → P (fireStep tm s))
    (hend : ∀ s, P s → (∀ tm ∈ s.timers, t < tm.due) → Q { s with now := max s.now t })
    (s : Session) (hP : P s) : Q (advanceTo t s) :=
  advanceFuel_rec t P Q hstep hend s.timers.length s le_rfl hP

theorem advanceTo_now (t : Nat) (s : Session) : (advanceTo t s).now = max s.now t := by
  refine advanceTo_rec t (fun x => max x.now t = max s.now t) (fun x => x.now = max s.now t)
    ?_ ?_ s rfl
  · intro x tm hx _ hdue
    simp only [fireStep_now]
    rw [← hx]
    omega
  · intro x hx _
    exact hx

theorem filter_erase_of_neg (p : Timer → Bool) (a : Timer) (h : p a = false) :
    ∀ l : List Timer, (l.erase a).filter p = l.filter p
  | [] => rfl
  | b :: l => by
    by_cases hb : b = a
    · subst hb
      simp [h]
    · have hba : (b == a) = false := by simpa using hb
      rw [List.erase_cons, hba]
      simp only [Bool.false_eq_true, if_false, List.filter_cons]
      rw [filter_erase_of_neg p a h l]

theorem filter_erase_of_pos (p : Timer → Bool) (a : Timer) (h : p a = true) :
    ∀ l : List Timer, (l.erase a).filter p = (l.filter p).erase a
  | [] => rfl
  | b :: l => by
    by_cases hb : b = a
    · subst hb
      simp [h]
    · have hba : (b == a) = false := by simpa using hb
      rw [List.erase_cons, hba]
      simp only [Bool.false_eq_true, if_false, List.filter_cons]
      by_cases hp : p b = true
      · simp only [hp, if_true]
        rw [List.erase_cons, hba]
        simp only [Bool.false_eq_true, if_false]
        rw [filter_erase_of_pos p a h l]
      · simp only [hp, if_false, Bool.false_eq_true]
        exact filter_erase_of_pos p a h l

theorem advanceTo_timers (t : Nat) (s : Session) :
    (advanceTo t s).timers = s.timers.filter (fun tm => decide (t < tm.due)) := by
  refine advanceTo_rec t
    (fun x => x.timers.filter (fun tm => decide (t < tm.due))
      = s.timers.filter (fun tm => decide (t < tm.due)))
    (fun x => x.timers = s.timers.filter (fun tm => decide (t < tm.due))) ?_ ?_ s rfl
  · intro x tm hx _ hdue
    simp only [fireStep_timers]
    rw [filter_erase_of_neg _ tm (by simpa using hdue)]
    exact hx
  · intro x hx hall
    simp only []
    rw [← hx]
    symm
    exact List.filter_eq_self.mpr (fun a ha => by simpa using hall a ha)

theorem advanceTo_enables (t : Nat) (s : Session)
    (h : ∃ tm ∈ s.timers, tm.callback = .enableSend ∧ tm.due ≤ t) :
    (advanceTo t s).sendBtnDisabled = false := by
  refine advanceTo_rec t
    (fun x => x.sendBtnDisabled = false ∨ ∃ tm ∈ x.timers, tm.callback = .enableSend ∧ tm.due ≤ t)
    (fun x => x.sendBtnDisabled = false) ?_ ?_ s (Or.inr h)
  · intro x tm hx _ _
    rcases hx with hx | ⟨tm0, hmem, hcb, hdue0⟩
    · left
      unfold fireStep
      cases tm.callback <;> simp [runCallback, connectWebSocket, hx]
    · by_cases heq : tm0 = tm
      · left
        subst heq
        simp [fireStep, hcb, runCallback]
      · right
        refine ⟨tm0, ?_, hcb, hdue0⟩
        rw [fireStep_timers]
        exact (List.mem_erase_of_ne heq).mpr hmem
  · intro x hx hall
    rcases hx with hx | ⟨tm0, hmem, _, hdue0⟩
    · exact hx
    · have := hall tm0 hmem
      omega

theorem advanceTo_sendBtn (t : Nat) (s : Session)
    (h : ∀ tm ∈ s.timers, tm.callback = .enableSend → t < tm.due) :
    (advanceTo t s).sendBtnDisabled = s.sendBtnDisabled := by
  refine advanceTo_rec t
    (fun x => x.sendBtnDisabled = s.sendBtnDisabled ∧
      ∀ tm ∈ x.timers, tm.callback = .enableSend → t < tm.due)
    (fun x => x.sendBtnDisabled = s.sendBtnDisabled) ?_ ?_ s ⟨rfl, h⟩
  · intro x tm ⟨hx, hall⟩ he hdue
    have hmem := earliest_mem _ _ he
    have hcb : tm.callback ≠ .enableSend := fun e => by
      have := hall tm hmem e
      omega
    constructor
    · unfold fireStep
      cases hc : tm.callback with
      | connectWebSocket => simp [runCallback, connectWebSocket, hx]
      | enableSend => exact absurd hc hcb
      | clearStatus => simp [runCallback, hx]
    · intro y hy
      rw [fireStep_timers] at hy
      exact hall y (List.mem_of_mem_erase hy)
  · intro x hx _
    exact hx.1

theorem advanceTo_no_attempt (t : Nat) (s : Session)
    (h : ∀ tm ∈ s.timers, tm.callback = .connectWebSocket → t < tm.due) :
    (advanceTo t s).attempts = s.attempts ∧ (advanceTo t s).ws = s.ws := by
  refine advanceTo_rec t
    (fun x => (x.attempts = s.attempts ∧ x.ws = s.ws) ∧
      ∀ tm ∈ x.timers, tm.callback = .connectWebSocket → t < tm.due)
    (fun x => x.attempts = s.attempts ∧ x.ws = s.ws) ?_ ?_ s ⟨⟨rfl, rfl⟩, h⟩
  · intro x tm ⟨hx, hall⟩ he hdue
    have hmem := earliest_mem _ _ he
    have hcb : tm.callback ≠ .connectWebSocket := fun e => by
      have := hall tm hmem e
      omega
    constructor
    · unfold fireStep
      cases hc : tm.callback with
      | connectWebSocket => exact absurd hc hcb
      | enableSend => simpa [runCallback] using hx
      | clearStatus => simpa [runCallback] using hx
    · intro y hy
      rw [fireStep_timers] at hy
      exact hall y (List.mem_of_mem_erase hy)
  · intro x hx _
    exact hx.1

/-- With exactly one reconnect timer pending, due at `D ≤ t`, letting the clock
run to `t` makes exactly one connection attempt, at `D`. -/
theorem advanceTo_one_attempt (t D : Nat) (s : Session)
    (hone : s.timers.filter (fun tm => decide (tm.callback = .connectWebSocket))
      = [⟨D, .connectWebSocket⟩])
    (hD : D ≤ t) (hnow : s.now ≤ D) :
    (advanceTo t s).attempts = s.attempts ++ [D] ∧
    (advanceTo t s).ws = some ⟨"ws://localhost:8787".toList, .CONNECTING⟩ := by
  refine advanceTo_rec t
    (fun x =>
      (x.timers.filter (fun tm => decide (tm.callback = .connectWebSocket))
          = [⟨D, .connectWebSocket⟩] ∧ x.attempts = s.attempts ∧ x.now ≤ D) ∨
      (x.timers.filter (fun tm => decide (tm.callback = .connectWebSocket)) = [] ∧
        x.attempts = s.attempts ++ [D] ∧
        x.ws = some ⟨"ws://localhost:8787".toList, .CONNECTING⟩))
    (fun x => x.attempts = s.attempts ++ [D] ∧
      x.ws = some ⟨"ws://localhost:8787".toList, .CONNECTING⟩) ?_ ?_ s (Or.inl ⟨hone, rfl, hnow⟩)
  · intro x tm hx he hdue
    have hmem := earliest_mem _ _ he
    rcases hx with ⟨hf, ha, hn⟩ | ⟨hf, ha, hw⟩
    · have hD0 : (⟨D, .connectWebSocket⟩ : Timer) ∈ x.timers := by
        have : (⟨D, .connectWebSocket⟩ : Timer) ∈
            x.timers.filter (fun tm => decide (tm.callback = .connectWebSocket)) := by
          rw [hf]; simp
        exact List.mem_of_mem_filter this
      have hle : tm.due ≤ D := earliest_le _ _ he _ hD0
      by_cases hcb : tm.callback = .connectWebSocket
      · have htm : tm = ⟨D, .connectWebSocket⟩ := by
          have : tm ∈ x.timers.filter (fun tm => decide (tm.callback = .connectWebSocket)) :=
            List.mem_filter.mpr ⟨hmem, by simpa using hcb⟩
          rw [hf] at this
          simpa using this
        right
        refine ⟨?_, ?_, ?_⟩
        · rw [fireStep_timers, filter_erase_of_pos _ tm (by simpa using hcb), hf, htm]
          simp
        · subst htm
          simp [fireStep, runCallback, connectWebSocket, ha, hn]
        · subst htm
          simp [fireStep, runCallback, connectWebSocket]
      · left
        refine ⟨?_, ?_, ?_⟩
        · rw [fireStep_timers, filter_erase_of_neg _ tm (by simpa using hcb)]
          exact hf
        · unfold fireStep
          cases hc : tm.callback with
          | connectWebSocket => exact absurd hc hcb
          | enableSend => simpa [runCallback] using ha
          | clearStatus => simpa [runCallback] using ha
        · rw [fireStep_now]
          omega
    · have hcb : tm.callback ≠ .connectWebSocket := by
        intro e
        have : tm ∈ x.timers.filter (fun tm => decide (tm.callback = .connectWebSocket)) :=
          List.mem_filter.mpr ⟨hmem, by simpa using e⟩
        rw [hf] at this
        simp at this
      right
      refine ⟨?_, ?_⟩
      · rw [fireStep_timers, filter_erase_of_neg _ tm (by simpa using hcb)]
        exact hf
      · unfold fireStep
        cases hc : tm.callback with
        | connectWebSocket => exact absurd hc hcb
        | enableSend => simpa [runCallback] using ⟨ha, hw⟩
        | clearStatus => simpa [runCallback] using ⟨ha, hw⟩
  · intro x hx hall
    rcases hx with ⟨hf, _, _⟩ | ⟨_, ha, hw⟩
    · have hD0 : (⟨D, .connectWebSocket⟩ : Timer) ∈ x.timers := by
        have : (⟨D, .connectWebSocket⟩ : Timer) ∈
            x.timers.filter (fun tm => decide (tm.callback = .connectWebSocket)) := by
          rw [hf]; simp
        exact List.mem_of_mem_filter this
      have := hall _ hD0
      simp at this
      omega
    · exact ⟨ha, hw⟩

/-! ## Frame lemmas -/

theorem showStatus_outbound (m t : Str) (s : Session) :
    (showStatus m t s).outbound = s.outbound := by
  unfold showStatus
  simp only []
  split_ifs <;> rfl

theorem showStatus_attachments (m t : Str) (s : Session) :
    (showStatus m t s).attachments = s.attachments := by
  unfold showStatus
  simp only []
  split_ifs <;> rfl

theorem showStatus_class (m t : Str) (s : Session) :
    (showStatus m t s).statusMessageClass = t ∧ (showStatus m t s).statusMessageText = m := by
  unfold showStatus
  simp only []
  split_ifs <;> exact ⟨rfl, rfl⟩

theorem showStatus_sendBtn (m t : Str) (s : Session) :
    (showStatus m t s).sendBtnDisabled = s.sendBtnDisabled := by
  unfold showStatus
  simp only []
  split_ifs <;> rfl

theorem loadInbox_open (s : Session) (sock : WebSocket) (hw : s.ws = some sock)
    (ho : sock.readyState = .OPEN) :
    loadInbox s = { s with outbound := s.outbound ++ [.get_recipients] } := by
  simp [loadInbox, hw, ho]

theorem loadInbox_not_open (s : Session)
    (h : ∀ sock, s.ws = some sock → sock.readyState ≠ .OPEN) : loadInbox s = s := by
  unfold loadInbox
  cases hw : s.ws with
  | none => rfl
  | some sock => simp [h sock hw]

theorem loadInbox_frame (s : Session) :
    (loadInbox s).attachments = s.attachments ∧ (loadInbox s).senderField = s.senderField ∧
    (loadInbox s).recipientsField = s.recipientsField ∧
    (loadInbox s).subjectField = s.subjectField ∧ (loadInbox s).bodyField = s.bodyField ∧
    (loadInbox s).selectedRecipient = s.selectedRecipient ∧
    (loadInbox s).selectedEmail = s.selectedEmail ∧
    (loadInbox s).sendBtnDisabled = s.sendBtnDisabled ∧ (loadInbox s).timers = s.timers ∧
    (loadInbox s).statusMessageClass = s.statusMessageClass ∧
    (loadInbox s).statusMessageText = s.statusMessageText := by
  unfold loadInbox
  cases h : s.ws with
  | none => simp
  | some sock => by_cases ho : sock.readyState = .OPEN <;> simp [ho]

theorem showStatus_timers (m t : Str) (s : Session) :
    (showStatus m t s).timers = s.timers ∨
    (showStatus m t s).timers = s.timers ++ [⟨s.now + 5000, .clearStatus⟩] := by
  unfold showStatus
  simp only []
  split_ifs
  · right; rfl
  · left; rfl

theorem updateAttachmentDisplay_frame (s : Session) :
    (updateAttachmentDisplay s).timers = s.timers ∧
    (updateAttachmentDisplay s).sendBtnDisabled = s.sendBtnDisabled := by
  unfold updateAttachmentDisplay
  split_ifs <;> exact ⟨rfl, rfl⟩

theorem displayRecipients_frame (rs : List Item) (s : Session) :
    (displayRecipients rs s).timers = s.timers ∧
    (displayRecipients rs s).sendBtnDisabled = s.sendBtnDisabled := by
  unfold displayRecipients
  split_ifs <;> exact ⟨rfl, rfl⟩

theorem displayEmails_frame (es : List Item) (r : Str) (s : Session) :
    (displayEmails es r s).timers = s.timers ∧
    (displayEmails es r s).sendBtnDisabled = s.sendBtnDisabled := by
  unfold displayEmails
  split_ifs <;> exact ⟨rfl, rfl⟩

theorem displayEmailContent_frame (c : Str) (b : Bool) (s : Session) :
    (displayEmailContent c b s).timers = s.timers ∧
    (displayEmailContent c b s).sendBtnDisabled = s.sendBtnDisabled := by
  unfold displayEmailContent
  split_ifs <;> exact ⟨rfl, rfl⟩

theorem clearForm_frame (s : Session) :
    (clearForm s).timers = s.timers ∧ (clearForm s).sendBtnDisabled = s.sendBtnDisabled := by
  unfold clearForm
  exact updateAttachmentDisplay_frame _

theorem loadInbox_timers (s : Session) : (loadInbox s).timers = s.timers :=
  (loadInbox_frame s).2.2.2.2.2.2.2.2.1

theorem loadInbox_sendBtn (s : Session) : (loadInbox s).sendBtnDisabled = s.sendBtnDisabled :=
  (loadInbox_frame s).2.2.2.2.2.2.2.1

/-- Handling an inbound message never touches the send control, and the only
timers it registers clear the status line. -/
theorem handleMessage_frame (data : InMsg) (s : Session) :
    (handleMessage data s).sendBtnDisabled = s.sendBtnDisabled ∧
    (∀ tm ∈ s.timers, tm ∈ (handleMessage data s).timers) ∧
    (∀ tm ∈ (handleMessage data s).timers, tm ∈ s.timers ∨ tm.callback = .clearStatus) := by
  have hshow : ∀ (m t : Str),
      (showStatus m t s).sendBtnDisabled = s.sendBtnDisabled ∧
      (∀ tm ∈ s.timers, tm ∈ (showStatus m t s).timers) ∧
      (∀ tm ∈ (showStatus m t s).timers, tm ∈ s.timers ∨ tm.callback = .clearStatus) := by
    intro m t
    refine ⟨showStatus_sendBtn m t s, ?_, ?_⟩
    · intro tm h
      rcases showStatus_timers m t s with e | e <;> rw [e] <;> simp [h]
    · intro tm h
      rcases showStatus_timers m t s with e | e
      · rw [e] at h; exact Or.inl h
      · rw [e] at h
        rcases List.mem_append.mp h with h | h
        · exact Or.inl h
        · right
          simp at h
          rw [h]
  unfold handleMessage
  split_ifs
  · exact ⟨rfl, fun _ h => h, fun _ h => Or.inl h⟩
  · rw [loadInbox_sendBtn, loadInbox_timers, (clearForm_frame _).1, (clearForm_frame _).2]
    exact hshow _ _
  · rw [(displayRecipients_frame _ _).1, (displayRecipients_frame _ _).2]
    exact ⟨rfl, fun _ h => h, fun _ h => Or.inl h⟩
  · rw [(displayEmails_frame _ _ _).1, (displayEmails_frame _ _ _).2]
    exact ⟨rfl, fun _ h => h, fun _ h => Or.inl h⟩
  · rw [(displayEmailContent_frame _ _ _).1, (displayEmailContent_frame _ _ _).2]
    exact ⟨rfl, fun _ h => h, fun _ h => Or.inl h⟩
  · rw [loadInbox_sendBtn, loadInbox_timers]
    exact ⟨rfl, fun _ h => h, fun _ h => Or.inl h⟩
  · exact hshow _ _
  · exact ⟨rfl, fun _ h => h, fun _ h => Or.inl h⟩

theorem showStatus_timers_mono (m t : Str) (s : Session) (tm : Timer) (h : tm ∈ s.timers) :
    tm ∈ (showStatus m t s).timers := by
  rcases showStatus_timers m t s with e | e <;> rw [e] <;> simp [h]

theorem sendEmail_timers_mono (s : Session) (tm : Timer) (h : tm ∈ s.timers) :
    tm ∈ (sendEmail s).timers := by
  by_cases hv : validForm s
  · rw [sendEmail_valid s hv]
    have h1 : tm ∈ (showStatus "Sending email...".toList []
        { s with sendBtnDisabled := true }).timers := showStatus_timers_mono _ _ _ tm h
    cases hw : s.ws with
    | none => simpa [wsSend, showStatus, hw] using h
    | some sock =>
      by_cases hc : sock.readyState = .CONNECTING
      · simpa [wsSend, showStatus, hw, hc] using h
      · simp [wsSend, showStatus, hw, hc, setTimeout, h]
  · obtain ⟨msg, e⟩ := sendEmail_invalid s hv
    rw [e]
    exact showStatus_timers_mono _ _ _ tm h

/-- No listener removes a pending timer. -/
theorem dispatch_timers_mono (e : Event) (s : Session) (tm : Timer) (h : tm ∈ s.timers) :
    tm ∈ (dispatch e s).timers := by
  cases e with
  | load => exact h
  | «open» =>
    simp only [dispatch, onopen]
    rw [loadInbox_timers]
    exact showStatus_timers_mono _ _ _ tm (by simpa [updateConnectionStatus, consoleLog, setReadyState] using h)
  | message data => exact (handleMessage_frame data s).2.1 tm h
  | error =>
    simp only [dispatch, onerror]
    exact showStatus_timers_mono _ _ _ tm (by simpa [consoleLog] using h)
  | close =>
    simp only [dispatch, onclose, setTimeout]
    have := showStatus_timers_mono "Disconnected from server".toList "error".toList
      (updateConnectionStatus false
        (consoleLog "Disconnected from WebSocket server".toList (setReadyState .CLOSED s))) tm
      (by simpa [updateConnectionStatus, consoleLog, setReadyState] using h)
    exact List.mem_append_left _ this
  | submit => exact sendEmail_timers_mono s tm h
  | clearClick =>
    simp only [dispatch]
    rw [(clearForm_frame s).1]
    exact h
  | refreshClick =>
    simp only [dispatch]
    rw [loadInbox_timers]
    exact h
  | fileRead att =>
    simp only [dispatch, handleFileSelect]
    rw [(updateAttachmentDisplay_frame _).1]
    exact h
  | removeClick index =>
    simp only [dispatch, removeAttachment]
    rw [(updateAttachmentDisplay_frame _).1]
    exact h
  | input field v => cases field <;> exact h

theorem advanceTo_timers_keep (t : Nat) (s : Session) (tm : Timer) (h : tm ∈ s.timers)
    (hdue : t < tm.due) : tm ∈ (advanceTo t s).timers := by
  rw [advanceTo_timers]
  exact List.mem_filter.mpr ⟨h, by simpa using hdue⟩

theorem advanceTo_timers_sub (t : Nat) (s : Session) (tm : Timer)
    (h : tm ∈ (advanceTo t s).timers) : tm ∈ s.timers := by
  rw [advanceTo_timers] at h
  exact List.mem_of_mem_filter h

/-- A pending timer survives every trace whose events all come before it is
due. -/
theorem run_timers_keep (tm : Timer) :
    ∀ (es : List (Nat × Event)) (s : Session), (∀ p ∈ es, p.1 < tm.due) → tm ∈ s.timers →
      tm ∈ (run es s).timers
  | [], _, _, h => h
  | (t, e) :: rest, s, hes, h => by
    simp only [run]
    refine run_timers_keep tm rest _ (fun p hp => hes p (List.mem_cons_of_mem _ hp)) ?_
    exact dispatch_timers_mono e _ tm
      (advanceTo_timers_keep t s tm h (hes (t, e) (List.mem_cons_self _ _)))

/-- While only inbound messages are handled and no re-enable timer falls due,
the send control keeps its state. -/
theorem run_messages_sendBtn (D : Nat) :
    ∀ (ms : List (Nat × InMsg)) (s : Session), (∀ p ∈ ms, p.1 < D) →
      (∀ tm ∈ s.timers, tm.callback = .enableSend → D ≤ tm.due) →
      (run (ms.map (fun p => (p.1, Event.message p.2))) s).sendBtnDisabled = s.sendBtnDisabled ∧
      (∀ tm ∈ (run (ms.map (fun p => (p.1, Event.message p.2))) s).timers,
        tm.callback = .enableSend → D ≤ tm.due)
  | [], _, _, h => ⟨rfl, h⟩
  | (t, d) :: rest, s, hms, h => by
    simp only [List.map, run]
    have ht : t < D := hms (t, d) (List.mem_cons_self _ _)
    have h1 : (advanceTo t s).sendBtnDisabled = s.sendBtnDisabled :=
      advanceTo_sendBtn t s (fun tm hm hc => by have := h tm hm hc; omega)
    have h2 : ∀ tm ∈ (advanceTo t s).timers, tm.callback = .enableSend → D ≤ tm.due :=
      fun tm hm hc => h tm (advanceTo_timers_sub t s tm hm) hc
    obtain ⟨f1, _, f3⟩ := handleMessage_frame d (advanceTo t s)
    have h3 : ∀ tm ∈ (dispatch (.message d) (advanceTo t s)).timers,
        tm.callback = .enableSend → D ≤ tm.due := by
      intro tm hm hc
      rcases f3 tm hm with hm | hcl
      · exact h2 tm hm hc
      · rw [hcl] at hc
        exact Callback.noConfusion hc
    obtain ⟨r1, r2⟩ := run_messages_sendBtn D rest (dispatch (.message d) (advanceTo t s))
      (fun p hp => hms p (List.mem_cons_of_mem _ hp)) h3
    refine ⟨?_, r2⟩
    rw [r1]
    show (handleMessage d (advanceTo t s)).sendBtnDisabled = _
    rw [f1, h1]

/-! ## Reconnect timer -/

theorem dispatch_close_timers (s : Session) :
    (dispatch .close s).timers
      = s.timers ++ [⟨s.now + 5000, .clearStatus⟩, ⟨s.now + 3000, .connectWebSocket⟩] ∧
    (dispatch .close s).now = s.now ∧ (dispatch .close s).attempts = s.attempts := by
  simp [dispatch, onclose, setTimeout, showStatus, updateConnectionStatus, consoleLog,
    setReadyState]

theorem dispatch_close_reconnects (s : Session)
    (hnone : ∀ tm ∈ s.timers, tm.callback ≠ .connectWebSocket) :
    (dispatch .close s).timers.filter (fun tm => decide (tm.callback = .connectWebSocket))
      = [⟨s.now + 3000, .connectWebSocket⟩] := by
  have h0 : s.timers.filter (fun tm => decide (tm.callback = .connectWebSocket)) = [] := by
    rw [List.filter_eq_nil_iff]
    intro a ha
    simpa using hnone a ha
  rw [(dispatch_close_timers s).1, List.filter_append, h0]
  simp [List.filter]

theorem retryRounds_attempts :
    ∀ (ds : List Nat) (s : Session), (∀ tm ∈ s.timers, tm.callback ≠ .connectWebSocket) →
      (retryRounds ds s).attempts = s.attempts ++ attemptTimes s.now ds
  | [], s, _ => by simp [retryRounds, attemptTimes]
  | d :: ds, s, hnone => by
    simp only [retryRounds, attemptTimes]
    obtain ⟨ht, hn, ha⟩ := dispatch_close_timers s
    have h1 := advanceTo_one_attempt (s.now + 3000 + d) (s.now + 3000) (dispatch .close s)
      (dispatch_close_reconnects s hnone) (by omega) (by omega)
    have hnow : (advanceTo (s.now + 3000 + d) (dispatch .close s)).now = s.now + 3000 + d := by
      rw [advanceTo_now, hn]
      omega
    have hnone2 : ∀ tm ∈ (advanceTo (s.now + 3000 + d) (dispatch .close s)).timers,
        tm.callback ≠ .connectWebSocket := by
      intro tm hm
      rw [advanceTo_timers, List.mem_filter, ht] at hm
      obtain ⟨hm, hdue⟩ := hm
      simp only [List.mem_append, List.mem_cons, List.mem_singleton, List.not_mem_nil,
        or_false, decide_eq_true_eq] at hm hdue
      rcases hm with hm | rfl | rfl
      · exact hnone tm hm
      · simp
      · simp at hdue
    rw [retryRounds_attempts ds _ hnone2, h1.1, ha, hnow, List.append_assoc]
    rfl

/-! ## Reconnects along a browser run -/

theorem Quiet.trans_of {a b c : Session} (h1 : Quiet a b) (h2 : Quiet b c) : Quiet a c :=
  ⟨h2.1.trans h1.1, h2.2.trans h1.2⟩

theorem showStatus_quiet (m t : Str) (s : Session) : Quiet s (showStatus m t s) := by
  unfold showStatus
  simp only []
  split_ifs
  · exact ⟨rfl, by simp [connectTimers, setTimeout, List.filter_append, List.filter]⟩
  · exact ⟨rfl, rfl⟩

theorem loadInbox_quiet (s : Session) : Quiet s (loadInbox s) := by
  unfold loadInbox
  cases h : s.ws with
  | none => exact ⟨rfl, rfl⟩
  | some sock =>
    by_cases ho : sock.readyState = .OPEN
    · simp only [ho, if_true]
      exact ⟨by simp [h], rfl⟩
    · simp only [ho, if_false]
      exact ⟨by simp [h], rfl⟩

theorem updateAttachmentDisplay_quiet (s : Session) : Quiet s (updateAttachmentDisplay s) := by
  unfold updateAttachmentDisplay
  split_ifs <;> exact ⟨rfl, rfl⟩

theorem clearForm_quiet (s : Session) : Quiet s (clearForm s) := by
  unfold clearForm
  exact Quiet.trans_of ⟨rfl, rfl⟩ (updateAttachmentDisplay_quiet _)

theorem handleMessage_quiet (data : InMsg) (s : Session) : Quiet s (handleMessage data s) := by
  unfold handleMessage
  split_ifs
  · exact ⟨rfl, rfl⟩
  · exact Quiet.trans_of (Quiet.trans_of (showStatus_quiet _ _ s) (clearForm_quiet _))
      (loadInbox_quiet _)
  · unfold displayRecipients
    split_ifs <;> exact ⟨rfl, rfl⟩
  · unfold displayEmails
    split_ifs <;> exact ⟨rfl, rfl⟩
  · unfold displayEmailContent
    split_ifs <;> exact ⟨rfl, rfl⟩
  · exact loadInbox_quiet s
  · exact showStatus_quiet _ _ s
  · exact ⟨rfl, rfl⟩

theorem sendEmail_quiet (s : Session) : Quiet s (sendEmail s) := by
  by_cases hv : validForm s
  · rw [sendEmail_valid s hv]
    cases hw : s.ws with
    | none => simp [wsSend, showStatus, hw, Quiet, connectTimers]
    | some sock =>
      by_cases hc : sock.readyState = .CONNECTING
      · simp [wsSend, showStatus, hw, hc, Quiet, connectTimers]
      · simp [wsSend, showStatus, hw, hc, Quiet, connectTimers, setTimeout, List.filter_append,
          List.filter]
  · obtain ⟨msg, e⟩ := sendEmail_invalid s hv
    rw [e]
    exact showStatus_quiet _ _ s

theorem reconnectInv_quiet {s s2 : Session} (hq : Quiet s s2) (h : ReconnectInv s) :
    ReconnectInv s2 := by
  unfold ReconnectInv
  rw [hq.1, hq.2]
  exact h

theorem reconnectInv_advanceTo (t : Nat) (s : Session) (h : ReconnectInv s) :
    ReconnectInv (advanceTo t s) := by
  refine advanceTo_rec t ReconnectInv ReconnectInv ?_ ?_ s h
  · intro x tm hx he _
    have hmem := earliest_mem _ _ he
    by_cases hc : tm.callback = .connectWebSocket
    · left
      have hin : tm ∈ connectTimers x := List.mem_filter.mpr ⟨hmem, by simpa using hc⟩
      rcases hx with h0 | ⟨h1, _⟩
      · rw [h0] at hin
        simp at hin
      · obtain ⟨a, ha⟩ := List.length_eq_one.mp h1
        rw [ha] at hin
        simp only [List.mem_singleton] at hin
        simp only [connectTimers, fireStep_timers]
        rw [filter_erase_of_pos _ tm (by simpa using hc)]
        show (connectTimers x).erase tm = []
        rw [ha, hin]
        simp
    · have hq : Quiet x (fireStep tm x) := by
        constructor
        · unfold fireStep
          cases hcb : tm.callback with
          | connectWebSocket => exact absurd hcb hc
          | enableSend => rfl
          | clearStatus => rfl
        · simp only [connectTimers, fireStep_timers]
          rw [filter_erase_of_neg _ tm (by simpa using hc)]
      exact reconnectInv_quiet hq hx
  · intro x hx _
    exact hx

theorem reconnectInv_dispatch (e : Event) (s : Session) (h : ReconnectInv s)
    (hen : enabled e s = true) : ReconnectInv (dispatch e s) := by
  cases e with
  | load =>
    have hw : s.ws = none := by simpa [enabled] using hen
    rcases h with h0 | ⟨_, sock, hs, _⟩
    · left
      simpa [dispatch, connectWebSocket, connectTimers] using h0
    · rw [hw] at hs
      exact Option.noConfusion hs
  | «open» =>
    have h0 : connectTimers s = [] := by
      rcases h with h0 | ⟨_, sock, hs, hc⟩
      · exact h0
      · simp [enabled, hs, hc] at hen
    left
    have hq : Quiet (updateConnectionStatus true
        (consoleLog "Connected to WebSocket server".toList (setReadyState .OPEN s)))
        (dispatch .open s) :=
      Quiet.trans_of (showStatus_quiet _ _ _) (loadInbox_quiet _)
    rw [hq.2]
    simpa [connectTimers, updateConnectionStatus, consoleLog, setReadyState] using h0
  | message data => exact reconnectInv_quiet (handleMessage_quiet data s) h
  | error =>
    refine reconnectInv_quiet (s := s) ?_ h
    exact Quiet.trans_of (b := consoleLog "WebSocket error:".toList s) ⟨rfl, rfl⟩
      (showStatus_quiet _ _ _)
  | close =>
    obtain ⟨sock, hs, hc⟩ : ∃ sock, s.ws = some sock ∧ sock.readyState ≠ .CLOSED := by
      cases hw : s.ws with
      | none => simp [enabled, hw] at hen
      | some sock => exact ⟨sock, rfl, by simpa [enabled, hw] using hen⟩
    have h0 : connectTimers s = [] := by
      rcases h with h0 | ⟨_, sock2, hs2, hc2⟩
      · exact h0
      · rw [hs] at hs2
        cases hs2
        exact absurd hc2 hc
    right
    have hnone : ∀ tm ∈ s.timers, tm.callback ≠ .connectWebSocket := by
      intro tm hm hcb
      have : tm ∈ connectTimers s := List.mem_filter.mpr ⟨hm, by simpa using hcb⟩
      rw [h0] at this
      simp at this
    refine ⟨?_, ?_⟩
    · show ((dispatch .close s).timers.filter _).length = 1
      rw [dispatch_close_reconnects s hnone]
      rfl
    · exact ⟨{ sock with readyState := .CLOSED }, by
        simp [dispatch, onclose, setTimeout, showStatus, updateConnectionStatus, consoleLog,
          setReadyState, hs], rfl⟩
  | submit => exact reconnectInv_quiet (sendEmail_quiet s) h
  | clearClick => exact reconnectInv_quiet (clearForm_quiet s) h
  | refreshClick => exact reconnectInv_quiet (loadInbox_quiet s) h
  | fileRead att =>
    exact reconnectInv_quiet (s := s)
      (Quiet.trans_of (b := { s with attachments := s.attachments ++ [att] }) ⟨rfl, rfl⟩
        (updateAttachmentDisplay_quiet _)) h
  | removeClick index =>
    exact reconnectInv_quiet (s := s)
      (Quiet.trans_of (b := { s with attachments := s.attachments.eraseIdx index }) ⟨rfl, rfl⟩
        (updateAttachmentDisplay_quiet _)) h
  | input field v => cases field <;> exact reconnectInv_quiet (s := s) ⟨rfl, rfl⟩ h

theorem reachable_reconnectInv (s : Session) (h : Reachable s) : ReconnectInv s := by
  induction h with
  | start => left; rfl
  | wait t s _ ih => exact reconnectInv_advanceTo t s ih
  | event e s _ hen ih => exact reconnectInv_dispatch e s ih hen

/-- In a run of the client no reconnect is pending when a socket closes. -/
theorem reachable_close_no_pending (s : Session) (h : Reachable s)
    (hen : enabled .close s = true) : ∀ tm ∈ s.timers, tm.callback ≠ .connectWebSocket := by
  intro tm hm hcb
  have hin : tm ∈ connectTimers s := List.mem_filter.mpr ⟨hm, by simpa using hcb⟩
  rcases reachable_reconnectInv s h with h0 | ⟨_, sock, hs, hc⟩
  · rw [h0] at hin
    simp at hin
  · simp [enabled, hs, hc] at hen

/-! ## The display transform -/

theorem replaceAux_skip (pat rep : Str) :
    ∀ (k : Nat) (s : Str), replaceAux pat rep k s = replaceAux pat rep 0 (s.drop k)
  | 0, s => by simp
  | k + 1, [] => by simp [replaceAux]
  | k + 1, c :: cs => by
    simp only [replaceAux, List.drop_succ_cons]
    exact replaceAux_skip pat rep k cs

theorem replaceAll_nil (pat rep : Str) : replaceAll pat rep [] = [] := by
  simp [replaceAll, replaceAux]

theorem replaceAll_cons (pat rep : Str) (c : Char) (cs : Str) :
    replaceAll pat rep (c :: cs) =
      if pat.isPrefixOf (c :: cs) then rep ++ replaceAll pat rep (cs.drop (pat.length - 1))
      else c :: replaceAll pat rep cs := by
  simp only [replaceAll, replaceAux]
  rw [replaceAux_skip pat rep (pat.length - 1) cs]

theorem replaceAll_at_chars (s : Str) :
    replaceAll ['_', 'a', 't', '_'] ['@'] s = unescapeAt s := by
  induction s using unescapeAt.induct with
  | case1 rest ih =>
    rw [replaceAll_cons, unescapeAt]
    simpa [List.isPrefixOf] using ih
  | case2 c rest hne ih =>
    rw [replaceAll_cons, unescapeAt]
    · have hpre : List.isPrefixOf ['_', 'a', 't', '_'] (c :: rest) = false := by
        cases hp : List.isPrefixOf ['_', 'a', 't', '_'] (c :: rest) with
        | false => rfl
        | true =>
          exfalso
          obtain ⟨r, hr⟩ := List.isPrefixOf_iff_prefix.mp hp
          simp only [List.cons_append, List.nil_append, List.cons.injEq] at hr
          exact hne r hr.1.symm hr.2.symm
      rw [hpre]
      simp [ih]
    · exact hne
  | case3 => simp [replaceAll_nil, unescapeAt]

theorem replaceAll_dot_chars (s : Str) : replaceAll ['_'] ['.'] s = unescapeDot s := by
  induction s with
  | nil => simp [replaceAll_nil, unescapeDot]
  | cons c cs ih =>
    rw [replaceAll_cons]
    by_cases hc : c = '_'
    · subst hc
      simpa [List.isPrefixOf, unescapeDot] using ih
    · have hc2 : ¬ '_' = c := fun e => hc e.symm
      simpa [List.isPrefixOf, unescapeDot, hc, hc2] using ih

theorem displayName_eq_spec (name : Str) : displayName name = specDisplayName name := by
  have e1 : "_at_".toList = ['_', 'a', 't', '_'] := rfl
  have e2 : "@".toList = ['@'] := rfl
  have e3 : "_".toList = ['_'] := rfl
  have e4 : ".".toList = ['.'] := rfl
  rw [displayName, specDisplayName, e1, e2, e3, e4, replaceAll_at_chars, replaceAll_dot_chars]

theorem unescapeAt_cons_ne (c : Char) (x : Str) (h : c ≠ '_') :
    unescapeAt (c :: x) = c :: unescapeAt x := by
  rw [unescapeAt]
  intro r hc
  exact absurd hc h

theorem unescapeAt_underscore (x : Str) (h : List.isPrefixOf ['a', 't', '_'] x = false) :
    unescapeAt ('_' :: x) = '_' :: unescapeAt x := by
  rw [unescapeAt]
  intro r _ hx
  rw [hx] at h
  simp [List.isPrefixOf] at h

theorem escape_head (cs : Str) (hu : '_' ∉ cs) :
    List.isPrefixOf ['a', 't', '_'] (escapeAddress cs)
      = (List.isPrefixOf ['a', 't', '.'] cs || List.isPrefixOf ['a', 't', '@'] cs) := by
  have e1 : "_at_".toList = ['_', 'a', 't', '_'] := rfl
  have e3 : "_".toList = ['_'] := rfl
  rcases cs with _ | ⟨c1, _ | ⟨c2, _ | ⟨c3, r⟩⟩⟩
  · simp [escapeAddress, List.isPrefixOf]
  · simp only [escapeAddress, e1, e3]
    split_ifs <;> simp_all [List.isPrefixOf]
  · simp only [escapeAddress, e1, e3]
    split_ifs <;> simp_all [List.isPrefixOf]
  · simp only [escapeAddress, e1, e3]
    simp only [List.mem_cons, not_or] at hu
    obtain ⟨h1, h2, h3, _⟩ := hu
    by_cases a3 : c3 = '@'
    · subst a3
      split_ifs <;> simp_all [List.isPrefixOf]
    · by_cases d3 : c3 = '.'
      · subst d3
        split_ifs <;> simp_all [List.isPrefixOf]
      · have a3b : ('@' == c3) = false := by simpa using fun e : '@' = c3 => a3 e.symm
        have d3b : ('.' == c3) = false := by simpa using fun e : '.' = c3 => d3 e.symm
        have u3b : ('_' == c3) = false := by simpa using h3
        simp [a3, d3, List.isPrefixOf, a3b, d3b, u3b]
        split_ifs <;> simp_all [List.isPrefixOf]

theorem unescapeDot_cons (c : Char) (x : Str) :
    unescapeDot (c :: x) = (if c = '_' then '.' else c) :: unescapeDot x := by
  simp [unescapeDot]

theorem underscore_not_mem_unescapeDot (x : Str) : '_' ∉ unescapeDot x := by
  intro h
  simp only [unescapeDot, List.mem_map] at h
  obtain ⟨c, _, hc⟩ := h
  by_cases e : c = '_'
  · rw [if_pos e] at hc
    exact absurd hc (by decide)
  · rw [if_neg e] at hc
    exact e hc

theorem display_escape_cons (c : Char) (cs : Str) (hu : '_' ∉ c :: cs)
    (hp : spuriousHead (c :: cs) = false) :
    specDisplayName (escapeAddress (c :: cs)) = c :: specDisplayName (escapeAddress cs) := by
  have e1 : "_at_".toList = ['_', 'a', 't', '_'] := rfl
  have e3 : "_".toList = ['_'] := rfl
  simp only [List.mem_cons, not_or] at hu
  obtain ⟨hc, hcs⟩ := hu
  have hc2 : c ≠ '_' := fun e => hc e.symm
  by_cases ha : c = '@'
  · subst ha
    simp [specDisplayName, escapeAddress, unescapeAt, unescapeDot_cons]
  · by_cases hd : c = '.'
    · subst hd
      have hpre : List.isPrefixOf ['a', 't', '_'] (escapeAddress cs) = false := by
        rw [escape_head cs hcs]
        simpa [spuriousHead, List.isPrefixOf] using hp
      simp only [specDisplayName, escapeAddress, e3, if_neg ha, if_true, List.cons_append,
        List.nil_append]
      rw [unescapeAt_underscore _ hpre, unescapeDot_cons]
      simp
    · simp only [specDisplayName, escapeAddress, if_neg ha, if_neg hd, List.cons_append,
        List.nil_append]
      rw [unescapeAt_cons_ne _ _ hc2, unescapeDot_cons, if_neg hc2]

theorem display_escape_spurious (a : Str) (hp : spuriousHead a = true) :
    specDisplayName (escapeAddress a) ≠ a := by
  have e1 : "_at_".toList = ['_', 'a', 't', '_'] := rfl
  have e3 : "_".toList = ['_'] := rfl
  simp only [spuriousHead, Bool.or_eq_true] at hp
  rcases hp with hp | hp
  · obtain ⟨r, hr⟩ := List.isPrefixOf_iff_prefix.mp hp
    rw [← hr]
    simp [specDisplayName, escapeAddress, unescapeAt, unescapeDot_cons]
  · obtain ⟨r, hr⟩ := List.isPrefixOf_iff_prefix.mp hp
    rw [← hr]
    simp [specDisplayName, escapeAddress, unescapeAt, unescapeDot_cons]

theorem occursIn_cons_spurious (c : Char) (cs : Str) :
    (occursIn ['.', 'a', 't', '.'] (c :: cs) = false ∧
      occursIn ['.', 'a', 't', '@'] (c :: cs) = false) ↔
    (spuriousHead (c :: cs) = false ∧
      (occursIn ['.', 'a', 't', '.'] cs = false ∧ occursIn ['.', 'a', 't', '@'] cs = false)) := by
  simp only [occursIn, spuriousHead, Bool.or_eq_false_iff]
  tauto

theorem display_escape_iff : ∀ (a : Str), '_' ∉ a →
    (specDisplayName (escapeAddress a) = a ↔
      (occursIn ['.', 'a', 't', '.'] a = false ∧ occursIn ['.', 'a', 't', '@'] a = false))
  | [], _ => by simp [specDisplayName, escapeAddress, unescapeAt, unescapeDot, occursIn,
      List.isPrefixOf]
  | c :: cs, hu => by
    rw [occursIn_cons_spurious]
    have hcs : '_' ∉ cs := fun h => hu (List.mem_cons_of_mem _ h)
    cases hp : spuriousHead (c :: cs) with
    | true =>
      constructor
      · intro h
        exact absurd h (display_escape_spurious _ hp)
      · intro h
        exact absurd h.1 (by simp)
    | false =>
      rw [display_escape_cons c cs hu hp, List.cons_inj_right, display_escape_iff cs hcs]
      simp

/-! ## The claims -/

/-- C1. Whenever `sendEmail` sends a message (which it only does for a sender
that is non-empty after trimming), exactly one message is sent and its
`recipients` field is the
recipients text split on `,`, each piece trimmed, the empty pieces dropped, in
the original order; for the text `" a@b.com , , c@d.com "` that list is
`["a@b.com", "c@d.com"]`. -/
theorem sendEmail_recipients (s : Session)
    (hsent : (sendEmail s).outbound ≠ s.outbound) :
    ∃ m, (sendEmail s).outbound = s.outbound ++ [m] ∧
      m.recipients = some (recipientList s.recipientsField) ∧
      (s.recipientsField = " a@b.com , , c@d.com ".toList →
        m.recipients = some ["a@b.com".toList, "c@d.com".toList]) := by
  have hv : validForm s := by
    by_contra hn
    obtain ⟨msg, e⟩ := sendEmail_invalid s hn
    exact hsent (by rw [e, showStatus_outbound])
  have e := sendEmail_valid s hv
  refine ⟨.send_email (trim s.senderField) (recipientList s.recipientsField)
    (trim s.subjectField) (trim s.bodyField) s.attachments, ?_, rfl, ?_⟩
  · cases hw : s.ws with
    | none =>
      exfalso
      apply hsent
      rw [e]
      simp [wsSend, showStatus, hw]
    | some sock =>
      by_cases hc : sock.readyState = .CONNECTING
      · exfalso
        apply hsent
        rw [e]
        simp [wsSend, showStatus, hw, hc]
      · rw [e]
        simp [wsSend, showStatus, hw, hc, setTimeout]
  · intro ht
    have hl : recipientList " a@b.com , , c@d.com ".toList
        = ["a@b.com".toList, "c@d.com".toList] := by decide
    simp only [OutMsg.recipients, ht, hl]

theorem sendEmail_recipients_witness :
    (sendEmail draft).outbound ≠ draft.outbound ∧
    ∃ m, (sendEmail draft).outbound = draft.outbound ++ [m] ∧
      m.recipients = some (recipientList draft.recipientsField) ∧
      (draft.recipientsField = " a@b.com , , c@d.com ".toList →
        m.recipients = some ["a@b.com".toList, "c@d.com".toList]) :=
  ⟨by decide, sendEmail_recipients draft (by decide)⟩

/-- C2, counterexample. With the socket handle still `null`, a form that
passes validation produces no outbound message: the call `ws.send` throws and
the exception leaves the handler. -/
theorem sendEmail_iff_valid_fails :
    ¬ ((sendEmail { draft with ws := none }).outbound
          ≠ ({ draft with ws := none } : Session).outbound
        ↔ validForm { draft with ws := none }) ∧
    (sendEmail { draft with ws := none }).uncaught = [.TypeError] := by
  decide

/-- C2, amended. A form that fails validation (sender missing, recipients
missing, or no non-empty recipient after filtering) produces no outbound
message, shows an error status and leaves the attachment list unchanged, in
every session.  On a session whose socket is open, `sendEmail` produces an
outbound message if and only if the form passes validation, and then it
produces exactly one: of type `send_email`, carrying the trimmed sender, the
filtered recipient list, the trimmed subject and body and the current
attachment list, which stays as it was. -/
theorem sendEmail_validation (s : Session) :
    (¬ validForm s →
      (sendEmail s).outbound = s.outbound ∧
      (sendEmail s).statusMessageClass = "error".toList ∧
      (sendEmail s).attachments = s.attachments) ∧
    (∀ sock, s.ws = some sock → sock.readyState = .OPEN →
      ((sendEmail s).outbound ≠ s.outbound ↔ validForm s) ∧
      (validForm s →
        (sendEmail s).outbound = s.outbound ++
          [.send_email (trim s.senderField) (recipientList s.recipientsField)
            (trim s.subjectField) (trim s.bodyField) s.attachments] ∧
        (sendEmail s).attachments = s.attachments)) := by
  have hinv : ¬ validForm s →
      (sendEmail s).outbound = s.outbound ∧
      (sendEmail s).statusMessageClass = "error".toList ∧
      (sendEmail s).attachments = s.attachments := by
    intro hn
    obtain ⟨msg, e⟩ := sendEmail_invalid s hn
    rw [e]
    exact ⟨showStatus_outbound _ _ _, (showStatus_class _ _ _).1, showStatus_attachments _ _ _⟩
  refine ⟨hinv, ?_⟩
  intro sock hw ho
  have hval : validForm s →
      (sendEmail s).outbound = s.outbound ++
        [.send_email (trim s.senderField) (recipientList s.recipientsField)
          (trim s.subjectField) (trim s.bodyField) s.attachments] ∧
      (sendEmail s).attachments = s.attachments := by
    intro hv
    rw [sendEmail_valid_open s hv sock hw ho]
    exact ⟨rfl, rfl⟩
  refine ⟨⟨?_, ?_⟩, hval⟩
  · intro hne
    by_contra hn
    exact hne (hinv hn).1
  · intro hv
    rw [(hval hv).1]
    simp

theorem sendEmail_validation_witness :
    (¬ validForm connected →
      (sendEmail connected).outbound = connected.outbound ∧
      (sendEmail connected).statusMessageClass = "error".toList ∧
      (sendEmail connected).attachments = connected.attachments) ∧
    (∀ sock, draft.ws = some sock → sock.readyState = .OPEN →
      ((sendEmail draft).outbound ≠ draft.outbound ↔ validForm draft) ∧
      (validForm draft →
        (sendEmail draft).outbound = draft.outbound ++
          [.send_email (trim draft.senderField) (recipientList draft.recipientsField)
            (trim draft.subjectField) (trim draft.bodyField) draft.attachments] ∧
        (sendEmail draft).attachments = draft.attachments)) ∧
    ¬ validForm connected ∧ validForm draft ∧
    draft.ws = some ⟨"ws://localhost:8787".toList, .OPEN⟩ :=
  ⟨(sendEmail_validation connected).1, (sendEmail_validation draft).2,
    by decide, by decide, by decide⟩

/-- C7, counterexample. Handling an error event leaves an enabled send control
enabled: `onerror` only shows the status. -/
theorem onerror_keeps_send_enabled :
    ¬ (∀ s : Session, (dispatch .error s).sendBtnDisabled = true) := by
  intro h
  exact absurd (h initial) (by decide)

/-- C7, amended. In every session state: handling a close event shows a status
of type `error` and leaves the send control disabled; handling an error event
shows a status of type `error` and leaves the send control as it was; handling
a successful open leaves the send control enabled, shows a status of type
`success` and, the socket being open, sends exactly one `get_recipients`
request. -/
theorem socket_event_effects (s : Session) :
    ((dispatch .close s).statusMessageClass = "error".toList ∧
      (dispatch .close s).statusMessageText = "Disconnected from server".toList ∧
      (dispatch .close s).sendBtnDisabled = true) ∧
    ((dispatch .error s).statusMessageClass = "error".toList ∧
      (dispatch .error s).statusMessageText = "Connection error".toList ∧
      (dispatch .error s).sendBtnDisabled = s.sendBtnDisabled) ∧
    ((dispatch .open s).sendBtnDisabled = false ∧
      (dispatch .open s).statusMessageClass = "success".toList ∧
      (dispatch .open s).statusMessageText = "Connected to SMTP server".toList ∧
      (s.ws ≠ none → (dispatch .open s).outbound = s.outbound ++ [.get_recipients]) ∧
      (∀ sock, s.ws = some sock → sock.readyState = .OPEN →
        (onopen s).outbound = s.outbound ++ [.get_recipients])) := by
  refine ⟨?_, ?_, ?_⟩
  · simp [dispatch, onclose, setTimeout, showStatus, updateConnectionStatus, consoleLog,
      setReadyState]
  · simp [dispatch, onerror, showStatus, setTimeout, consoleLog]
  · obtain ⟨_, _, _, _, _, _, _, h8, _, h10, h11⟩ :=
      loadInbox_frame (showStatus "Connected to SMTP server".toList "success".toList
        (updateConnectionStatus true
          (consoleLog "Connected to WebSocket server".toList (setReadyState .OPEN s))))
    refine ⟨?_, ?_, ?_, ?_, ?_⟩
    · simp only [dispatch, onopen]
      rw [h8]
      simp [showStatus, setTimeout, updateConnectionStatus, consoleLog]
    · simp only [dispatch, onopen]
      rw [h10]
      simp [showStatus, setTimeout, updateConnectionStatus, consoleLog]
    · simp only [dispatch, onopen]
      rw [h11]
      simp [showStatus, setTimeout, updateConnectionStatus, consoleLog]
    · intro hne
      obtain ⟨sock, hw⟩ := Option.ne_none_iff_exists'.mp hne
      simp only [dispatch, onopen]
      rw [loadInbox_open _ { sock with readyState := .OPEN }
        (by simp [showStatus, setTimeout, updateConnectionStatus, consoleLog, setReadyState, hw])
        rfl]
      simp [showStatus, setTimeout, updateConnectionStatus, consoleLog, setReadyState]
    · intro sock hw ho
      simp only [onopen]
      rw [loadInbox_open _ sock
        (by simp [showStatus, setTimeout, updateConnectionStatus, consoleLog, hw]) ho]
      simp [showStatus, setTimeout, updateConnectionStatus, consoleLog]

theorem socket_event_effects_witness :
    connected.ws ≠ none ∧
    (dispatch .open connected).outbound = connected.outbound ++ [.get_recipients] :=
  ⟨by decide, (socket_event_effects connected).2.2.2.2.2.1 (by decide)⟩

/-- C8. For every session state in which an inbound message is delivered (the
browser delivers messages only on an open socket), handling a message of type
`inbox_updated` with `handleMessage` produces exactly one outbound message,
`get_recipients` with no other field, and changes nothing else. -/
theorem inbox_updated_requests_recipients (data : InMsg) (s : Session)
    (ht : data.type = some "inbox_updated".toList)
    (hen : enabled (.message data) s = true) :
    (handleMessage data s).outbound = s.outbound ++ [.get_recipients] ∧
    handleMessage data s = { s with outbound := s.outbound ++ [.get_recipients] } := by
  have e : handleMessage data s = loadInbox s := by
    simp [handleMessage, ht]
  obtain ⟨sock, hw, ho⟩ : ∃ sock, s.ws = some sock ∧ sock.readyState = .OPEN := by
    cases hw : s.ws with
    | none => simp [enabled, hw] at hen
    | some sock => exact ⟨sock, rfl, by simpa [enabled, hw] using hen⟩
  rw [e, loadInbox_open s sock hw ho]
  exact ⟨rfl, rfl⟩

theorem inbox_updated_requests_recipients_witness :
    Reachable connected ∧
    enabled (.message { type := some "inbox_updated".toList }) connected = true ∧
    (handleMessage { type := some "inbox_updated".toList } connected).outbound
      = connected.outbound ++ [.get_recipients] ∧
    handleMessage { type := some "inbox_updated".toList } connected
      = { connected with outbound := connected.outbound ++ [.get_recipients] } :=
  ⟨.event .open _ (.event .load _ .start (by decide)) (by decide), by decide,
   inbox_updated_requests_recipients { type := some "inbox_updated".toList } connected rfl
     (by decide)⟩

/-- C9. After `handleMessage` handles `send_success` with any message text, the
attachment list is empty and the sender, recipients, subject and body fields
are the empty string, whatever they held before; the selected recipient and
the selected email are unchanged. -/
theorem send_success_clears_form (s : Session) (data : InMsg)
    (ht : data.type = some "send_success".toList) :
    (handleMessage data s).attachments = [] ∧
    (handleMessage data s).senderField = [] ∧
    (handleMessage data s).recipientsField = [] ∧
    (handleMessage data s).subjectField = [] ∧
    (handleMessage data s).bodyField = [] ∧
    (handleMessage data s).selectedRecipient = s.selectedRecipient ∧
    (handleMessage data s).selectedEmail = s.selectedEmail := by
  have e : handleMessage data s
      = loadInbox (clearForm (showStatus data.message "success".toList s)) := by
    simp [handleMessage, ht]
  obtain ⟨h1, h2, h3, h4, h5, h6, h7, _⟩ :=
    loadInbox_frame (clearForm (showStatus data.message "success".toList s))
  rw [e, h1, h2, h3, h4, h5, h6, h7]
  simp [clearForm, updateAttachmentDisplay, showStatus, setTimeout]

theorem send_success_clears_form_witness :
    (handleMessage { type := some "send_success".toList, message := "OK".toList }
        draft).attachments = [] ∧
    (handleMessage { type := some "send_success".toList, message := "OK".toList }
        draft).senderField = [] ∧
    (handleMessage { type := some "send_success".toList, message := "OK".toList }
        draft).recipientsField = [] ∧
    (handleMessage { type := some "send_success".toList, message := "OK".toList }
        draft).subjectField = [] ∧
    (handleMessage { type := some "send_success".toList, message := "OK".toList }
        draft).bodyField = [] ∧
    (handleMessage { type := some "send_success".toList, message := "OK".toList }
        draft).selectedRecipient = draft.selectedRecipient ∧
    (handleMessage { type := some "send_success".toList, message := "OK".toList }
        draft).selectedEmail = draft.selectedEmail :=
  send_success_clears_form draft
    { type := some "send_success".toList, message := "OK".toList } rfl

/-- C10. An inbound message whose `type` is none of `connected`,
`send_success`, `recipients`, `emails`, `email_content`, `inbox_updated`,
`error` (a message without a `type` included) leaves the whole session as it
was, so in particular no outbound message is produced. -/
theorem handleMessage_unknown_type (data : InMsg) (s : Session)
    (h : ∀ t ∈ ["connected".toList, "send_success".toList, "recipients".toList,
      "emails".toList, "email_content".toList, "inbox_updated".toList, "error".toList],
      data.type ≠ some t) :
    handleMessage data s = s ∧ (handleMessage data s).outbound = s.outbound := by
  have e : handleMessage data s = s := by
    unfold handleMessage
    rw [if_neg (h _ (by simp)), if_neg (h _ (by simp)), if_neg (h _ (by simp)),
      if_neg (h _ (by simp)), if_neg (h _ (by simp)), if_neg (h _ (by simp)),
      if_neg (h _ (by simp))]
  exact ⟨e, by rw [e]⟩

theorem handleMessage_unknown_type_witness :
    (handleMessage { type := some "ping".toList } draft = draft ∧
      (handleMessage { type := some "ping".toList } draft).outbound = draft.outbound) ∧
    (handleMessage { type := none } draft = draft ∧
      (handleMessage { type := none } draft).outbound = draft.outbound) :=
  ⟨handleMessage_unknown_type { type := some "ping".toList } draft (by decide),
   handleMessage_unknown_type { type := none } draft (by decide)⟩

/-- C3, counterexample. The address `a_b@c.com` is escaped to `a_b_at_c_com`
and displayed as `a.b@c.com`: an underscore of the address itself comes back
as a dot. -/
theorem displayName_escape_not_inverse :
    displayName (escapeAddress "a_b@c.com".toList) ≠ "a_b@c.com".toList := by
  decide

/-- C3, amended. Escaping a mail address and then applying the display
transform gives back the address exactly when the address contains no `_` and
no `.at` followed by `.` or `@`. -/
theorem displayName_escape_iff (a : Str) :
    displayName (escapeAddress a) = a ↔ roundTripSafe a = true := by
  have e1 : ".at.".toList = ['.', 'a', 't', '.'] := rfl
  have e2 : ".at@".toList = ['.', 'a', 't', '@'] := rfl
  rw [displayName_eq_spec, roundTripSafe, e1, e2]
  by_cases hu : '_' ∈ a
  · constructor
    · intro h
      exfalso
      have := underscore_not_mem_unescapeDot (unescapeAt (escapeAddress a))
      rw [specDisplayName] at h
      rw [h] at this
      exact this hu
    · intro h
      exfalso
      simp [hu] at h
  · rw [display_escape_iff a hu]
    simp [hu]

theorem displayName_escape_iff_witness :
    displayName (escapeAddress "alice@example.com".toList) = "alice@example.com".toList ∧
    displayName (escapeAddress "x.at.y@z.org".toList) ≠ "x.at.y@z.org".toList :=
  ⟨(displayName_escape_iff "alice@example.com".toList).mpr (by decide),
   fun h => absurd ((displayName_escape_iff "x.at.y@z.org".toList).mp h) (by decide)⟩

/-- C4. For every recipient identifier the name `displayRecipients` shows in
the `list-item-name` element is the identifier with every `_at_` replaced by
`@`, scanning left to right without overlap, and then every remaining `_`
replaced by `.`; for `alice_at_example_com` it is `alice@example.com`. -/
theorem displayRecipients_shows_name (recipients : List Item) (s : Session)
    (hne : recipients ≠ []) :
    (∀ name, displayName name = specDisplayName name) ∧
    (displayRecipients recipients s).recipientsList =
      join (recipients.map (fun recipient =>
        "\n        <div class=\"list-item ".toList ++
        (if s.selectedRecipient = some recipient.name then "active".toList else []) ++
        "\" \n             onclick=\"selectRecipient('".toList ++ recipient.name ++
        "')\">\n            <div class=\"list-item-name\">".toList ++
        specDisplayName recipient.name ++
        "</div>\n            <div class=\"list-item-count\">".toList ++
        numToStr recipient.count ++
        " email(s)</div>\n        </div>\n    ".toList)) ∧
    displayName "alice_at_example_com".toList = "alice@example.com".toList := by
  refine ⟨displayName_eq_spec, ?_, by decide⟩
  have hlen : ¬ recipients.length = 0 := fun h => hne (List.length_eq_zero.mp h)
  unfold displayRecipients
  rw [if_neg hlen]
  refine congrArg join (List.map_congr_left (fun recipient _ => ?_))
  simp only [recipientItem, displayName_eq_spec]

set_option maxRecDepth 20000 in
theorem displayRecipients_shows_name_witness :
    (displayRecipients [{ name := "alice_at_example_com".toList, count := 2 }]
        connected).recipientsList =
      "\n        <div class=\"list-item \" \n             onclick=\"selectRecipient('alice_at_example_com')\">\n            <div class=\"list-item-name\">alice@example.com</div>\n            <div class=\"list-item-count\">2 email(s)</div>\n        </div>\n    ".toList :=
  ((displayRecipients_shows_name [{ name := "alice_at_example_com".toList, count := 2 }]
    connected (by decide)).2.1).trans (by decide)

/-- C5. Every close event registers exactly one timer for `connectWebSocket`,
due exactly 3000 ms later, whatever the session (so whatever the number of
earlier attempts).  When no other reconnect is pending, no attempt is made
before `T + 3000`, exactly one is made at `T + 3000`, and over any number of
attempts that each end in a close every attempt comes exactly 3000 ms after
the close before it.  A successful open registers no further attempt.  In a
browser run no other reconnect is ever pending when a socket closes. -/
theorem reconnect_flat_delay (s : Session) :
    (dispatch .close s).timers
      = s.timers ++ [⟨s.now + 5000, .clearStatus⟩, ⟨s.now + 3000, .connectWebSocket⟩] ∧
    ((∀ tm ∈ s.timers, tm.callback ≠ .connectWebSocket) →
      (∀ t, t < s.now + 3000 → (advanceTo t (dispatch .close s)).attempts = s.attempts) ∧
      (∀ t, s.now + 3000 ≤ t →
        (advanceTo t (dispatch .close s)).attempts = s.attempts ++ [s.now + 3000]) ∧
      (∀ ds, (retryRounds ds s).attempts = s.attempts ++ attemptTimes s.now ds)) ∧
    (∀ tm ∈ (dispatch .open s).timers, tm.callback = .connectWebSocket → tm ∈ s.timers) ∧
    (Reachable s → enabled .close s = true →
      ∀ tm ∈ s.timers, tm.callback ≠ .connectWebSocket) := by
  obtain ⟨ht, hn, ha⟩ := dispatch_close_timers s
  refine ⟨ht, ?_, ?_, fun hr hen => reachable_close_no_pending s hr hen⟩
  · intro hnone
    refine ⟨?_, ?_, fun ds => retryRounds_attempts ds s hnone⟩
    · intro t hlt
      have := advanceTo_no_attempt t (dispatch .close s) (by
        intro tm hm hc
        rw [ht] at hm
        simp only [List.mem_append, List.mem_cons, List.mem_singleton, List.not_mem_nil,
          or_false] at hm
        rcases hm with hm | rfl | rfl
        · exact absurd hc (hnone tm hm)
        · simp at hc
        · simpa using hlt)
      rw [this.1, ha]
    · intro t hle
      have := advanceTo_one_attempt t (s.now + 3000) (dispatch .close s)
        (dispatch_close_reconnects s hnone) hle (by omega)
      rw [this.1, ha]
  · intro tm hm hc
    simp only [dispatch, onopen] at hm
    rw [loadInbox_timers] at hm
    rcases showStatus_timers "Connected to SMTP server".toList "success".toList
      (updateConnectionStatus true
        (consoleLog "Connected to WebSocket server".toList (setReadyState .OPEN s))) with e | e
    · rw [e] at hm
      simpa [updateConnectionStatus, consoleLog, setReadyState] using hm
    · rw [e] at hm
      rcases List.mem_append.mp hm with hm | hm
      · simpa [updateConnectionStatus, consoleLog, setReadyState] using hm
      · simp only [List.mem_singleton] at hm
        rw [hm] at hc
        exact Callback.noConfusion hc

theorem reconnect_flat_delay_witness :
    Reachable connected ∧ enabled .close connected = true ∧
    (∀ tm ∈ connected.timers, tm.callback ≠ .connectWebSocket) ∧
    (advanceTo (connected.now + 3000) (dispatch .close connected)).attempts
      = connected.attempts ++ [connected.now + 3000] ∧
    (retryRounds [10, 0, 250] connected).attempts
      = connected.attempts ++ [3000, 6010, 9010] :=
  ⟨.event .open _ (.event .load _ .start (by decide)) (by decide), by decide,
   (reconnect_flat_delay connected).2.2.2
     (.event .open _ (.event .load _ .start (by decide)) (by decide)) (by decide),
   ((reconnect_flat_delay connected).2.1 (by decide)).2.1 (connected.now + 3000) le_rfl,
   ((reconnect_flat_delay connected).2.1 (by decide)).2.2 [10, 0, 250]⟩

/-- C6, counterexample. An invocation that fails validation returns before the
send control is touched: on the connected session with an empty form the
control is still enabled right after `sendEmail`. -/
theorem sendEmail_invalid_leaves_send_enabled :
    ¬ (∀ s : Session, (sendEmail s).sendBtnDisabled = true) := by
  intro h
  exact absurd (h connected) (by decide)

/-- C6, amended. An invocation of `sendEmail` that fails validation leaves the
send control as it was.  An invocation at time `T` that passes validation on a
session whose socket is open leaves the send control disabled immediately
after; whatever events are delivered before `T + 2000`, the control is enabled
once the clock has reached `T + 2000`; and when no earlier re-enable timer is
pending and only inbound messages are handled in between, the control is
still disabled at every time before `T + 2000`. -/
theorem sendEmail_debounce (s : Session) :
    (¬ validForm s → (sendEmail s).sendBtnDisabled = s.sendBtnDisabled) ∧
    (validForm s → ∀ sock, s.ws = some sock → sock.readyState = .OPEN →
      (sendEmail s).sendBtnDisabled = true ∧
      (∀ es : List (Nat × Event), (∀ p ∈ es, p.1 < s.now + 2000) →
        (advanceTo (s.now + 2000) (run es (sendEmail s))).sendBtnDisabled = false) ∧
      ((∀ tm ∈ s.timers, tm.callback = .enableSend → s.now + 2000 ≤ tm.due) →
        ∀ (ms : List (Nat × InMsg)) (t : Nat), (∀ p ∈ ms, p.1 < s.now + 2000) →
          t < s.now + 2000 →
          (advanceTo t (run (ms.map (fun p => (p.1, Event.message p.2)))
            (sendEmail s))).sendBtnDisabled = true)) := by
  constructor
  · intro hn
    obtain ⟨msg, e⟩ := sendEmail_invalid s hn
    rw [e, showStatus_sendBtn]
  · intro hv sock hw ho
    have e := sendEmail_valid_open s hv sock hw ho
    have hbtn : (sendEmail s).sendBtnDisabled = true := by rw [e]
    have htm : (sendEmail s).timers = s.timers ++ [⟨s.now + 2000, .enableSend⟩] := by rw [e]
    refine ⟨hbtn, ?_, ?_⟩
    · intro es hes
      apply advanceTo_enables
      refine ⟨⟨s.now + 2000, .enableSend⟩, ?_, rfl, le_rfl⟩
      exact run_timers_keep ⟨s.now + 2000, .enableSend⟩ es (sendEmail s) hes (by simp [htm])
    · intro hpend ms t hms ht
      have hpend2 : ∀ tm ∈ (sendEmail s).timers, tm.callback = .enableSend →
          s.now + 2000 ≤ tm.due := by
        intro tm hm hc
        rw [htm] at hm
        rcases List.mem_append.mp hm with hm | hm
        · exact hpend tm hm hc
        · simp only [List.mem_singleton] at hm
          rw [hm]
      obtain ⟨r1, r2⟩ := run_messages_sendBtn (s.now + 2000) ms (sendEmail s) hms hpend2
      rw [advanceTo_sendBtn t _ (fun tm hm hc => by have := r2 tm hm hc; omega), r1, hbtn]

theorem sendEmail_debounce_witness :
    validForm draft ∧ draft.ws = some ⟨"ws://localhost:8787".toList, .OPEN⟩ ∧
    (sendEmail draft).sendBtnDisabled = true ∧
    (advanceTo (draft.now + 2000)
      (run [(500, .message { type := some "send_success".toList }), (1200, .close)]
        (sendEmail draft))).sendBtnDisabled = false ∧
    (advanceTo 1999
      (run ([(500, { type := some "send_success".toList })].map
        (fun p => (p.1, Event.message p.2))) (sendEmail draft))).sendBtnDisabled = true :=
  ⟨by decide, by decide,
   ((sendEmail_debounce draft).2 (by decide) _ rfl rfl).1,
   ((sendEmail_debounce draft).2 (by decide) _ rfl rfl).2.1 _ (by decide),
   ((sendEmail_debounce draft).2 (by decide) _ rfl rfl).2.2 (by decide) _ 1999 (by decide)
     (by decide)⟩

end WebApp
